import Mathlib

/-!
# Fractals: a verification development for `src/main.cpp`

Shallow embedding of the fractal generators of `main.cpp`.

Modelling conventions.

* C++ `int` is modelled by `Int`.  Integer division is C++ division, which truncates
  towards zero (`Int.tdiv`).  None of the properties below depends on wrap-around; signed
  overflow is undefined behaviour in C++ and is outside the model.
* C++ `double` is modelled by an arbitrary linearly ordered field `R` with a floor function
  (exact arithmetic; `R := ℚ` makes every definition executable).  Rounding, infinities and
  NaN are outside that model.
* The zoom factor `scale`, whose repeated multiplication by `0.7` underflows, is in addition
  modelled in IEEE-754 binary64 arithmetic with round-to-nearest-even (`Dbl`).
* The conversion `double → int` truncates towards zero (`toInt`); `int → double` is the cast.
* The global viewport variables `centerX`, `centerY`, `scale` are passed explicitly as a
  `Viewport`.
* The drawing surface is modelled by the list of `SDL_RenderDrawLine` / `SDL_RenderDrawPoint`
  calls a function issues, in the order in which it issues them.
* Library functions that are not part of the repository (`std::abs` on `std::complex`,
  `cos`, `sin`, the constant `M_PI`) are parameters of the definitions that call them.
* The random source of `drawBarnsleyFern` is modelled by the sequence of values it returns.
* The recursive generators are defined by recursion on a natural-number depth; versions with
  an `Int` depth and a bound on the nesting of calls relate them to the source's `int depth`.
-/

namespace Fractals

variable {R : Type} [LinearOrderedField R]

/-! ## Constants and global state -/

/-- `const int WIDTH = 800;` -/
def WIDTH : Int := 800

/-- `const int HEIGHT = 600;` -/
def HEIGHT : Int := 600

/-- `const int MAX_ITERATIONS = 100;` -/
def MAX_ITERATIONS : Int := 100

/-- `const double BOUNDARY = 2.0;` -/
def BOUNDARY : R := 2

/-- The globals `centerX`, `centerY`, `scale` of `main.cpp`. -/
structure Viewport (R : Type) where
  centerX : R
  centerY : R
  scale : R

/-- Conversion `double → int`: truncation towards zero. -/
def toInt [FloorRing R] (q : R) : Int := if 0 ≤ q then ⌊q⌋ else ⌈q⌉

/-! ## Escape-time loops -/

/-- The `while` loop of `drawMandelbrot` (lines 58-64), with the cap `maxIter` as a parameter.
The loop state is `(zx, zy, iter)`; `cx`, `cy` are fixed.  Returns the final `iter`. -/
def mandelbrotLoop (maxIter : Int) (cx cy : R) (zx zy : R) (iter : Int) : Int :=
  if h : zx * zx + zy * zy < 4 ∧ iter < maxIter then
    mandelbrotLoop maxIter cx cy (zx * zx - zy * zy + cx) (2 * zx * zy + cy) (iter + 1)
  else
    iter
termination_by (maxIter - iter).toNat
decreasing_by
  have := h.2
  omega

/-- Multiplication of `std::complex<double>` values, as pairs `(re, im)`. -/
def cmul (a b : R × R) : R × R := (a.1 * b.1 - a.2 * b.2, a.1 * b.2 + a.2 * b.1)

/-- Addition of `std::complex<double>` values. -/
def cadd (a b : R × R) : R × R := (a.1 + b.1, a.2 + b.2)

/-- The `while` loop of `drawJuliaSet` (lines 86-90), with the cap and the boundary as
parameters.  `cabs` stands for `std::abs` on `std::complex<double>`; `c` is the global Julia
constant; the loop state is `(z, iter)`.  Returns the final `iter`. -/
def juliaLoop (cabs : R × R → R) (boundary : R) (maxIter : Int) (c : R × R)
    (z : R × R) (iter : Int) : Int :=
  if h : cabs z < boundary ∧ iter < maxIter then
    juliaLoop cabs boundary maxIter c (cadd (cmul z z) c) (iter + 1)
  else
    iter
termination_by (maxIter - iter).toNat
decreasing_by
  have := h.2
  omega

/-- Lines 53-64 of `drawMandelbrot`: `cx = zx; cy = zy; iter = 0;` followed by the loop.  The
pixel's plane point `(zx, zy)` is both the start value and the added constant. -/
def mandelbrotIter (maxIter : Int) (zx zy : R) : Int :=
  mandelbrotLoop maxIter zx zy zx zy 0

/-- Lines 83-90 of `drawJuliaSet`: `z(zx, zy); iter = 0;` followed by the loop, `c` being the
global Julia constant. -/
def juliaIter (cabs : R × R → R) (boundary : R) (maxIter : Int) (c : R × R) (zx zy : R) : Int :=
  juliaLoop cabs boundary maxIter c (zx, zy) 0

/-- The colour computation `int color = (255 * iter) / maxIter;` (lines 66 and 92). -/
def color (iter maxIter : Int) : Int := Int.tdiv (255 * iter) maxIter

/-! ## Recursive generators -/

section Generators

variable [FloorRing R]

/-- One `SDL_RenderDrawLine(renderer, x1, y1, x2, y2)` call.  All lines are drawn in white
(`SDL_SetRenderDrawColor(..., 255, 255, 255, 255)`), so the colour is not recorded. -/
structure Segment where
  x1 : Int
  y1 : Int
  x2 : Int
  y2 : Int
  deriving DecidableEq, Repr

/-- The functions and the constant of `<cmath>` used by `main.cpp`. -/
structure MathLib (R : Type) where
  cos : R → R
  sin : R → R
  M_PI : R

/-- `drawKochLine` (lines 100-129).  The four coordinates are re-assigned from
`int - double` differences (truncated back to `int`) before the depth test; `depth` is a
natural number, the recursive calls being made with `depth - 1` from a non-zero depth. -/
def drawKochLine (v : Viewport R) (x1 y1 x2 y2 : Int) (depth : Nat) : List Segment :=
  let x1 := toInt ((x1 : R) - v.centerX)
  let y1 := toInt ((y1 : R) - v.centerY)
  let x2 := toInt ((x2 : R) - v.centerX)
  let y2 := toInt ((y2 : R) - v.centerY)
  match depth with
  | 0 => [⟨x1, y1, x2, y2⟩]
  | d + 1 =>
    let deltaX := x2 - x1
    let deltaY := y2 - y1
    let newX1 := x1 + Int.tdiv deltaX 3
    let newY1 := y1 + Int.tdiv deltaY 3
    let newX2 := x1 + Int.tdiv (2 * deltaX) 3
    let newY2 := y1 + Int.tdiv (2 * deltaY) 3
    let tipX := Int.tdiv (newX1 + newX2) 2 - Int.tdiv deltaY 3
    let tipY := Int.tdiv (newY1 + newY2) 2 + Int.tdiv deltaX 3
    drawKochLine v x1 y1 newX1 newY1 d
      ++ drawKochLine v newX1 newY1 tipX tipY d
      ++ drawKochLine v tipX tipY newX2 newY2 d
      ++ drawKochLine v newX2 newY2 x2 y2 d

/-- `drawKochSnowflake` (lines 131-143). -/
def drawKochSnowflake (m : MathLib R) (v : Viewport R) (x y size : Int) (depth : Nat) :
    List Segment :=
  let x1 := toInt ((x : R) + (size : R) * m.cos 0)
  let y1 := toInt ((y : R) + (size : R) * m.sin 0)
  let x2 := toInt ((x : R) + (size : R) * m.cos (2 * m.M_PI / 3))
  let y2 := toInt ((y : R) + (size : R) * m.sin (2 * m.M_PI / 3))
  let x3 := toInt ((x : R) + (size : R) * m.cos (4 * m.M_PI / 3))
  let y3 := toInt ((y : R) + (size : R) * m.sin (4 * m.M_PI / 3))
  drawKochLine v x1 y1 x2 y2 depth
    ++ drawKochLine v x2 y2 x3 y3 depth
    ++ drawKochLine v x3 y3 x1 y1 depth

/-- `drawTriangle` (lines 145-152). -/
def drawTriangle (x1 y1 x2 y2 x3 y3 : Int) : List Segment :=
  [⟨x1, y1, x2, y2⟩, ⟨x2, y2, x3, y3⟩, ⟨x3, y3, x1, y1⟩]

/-- `drawSierpinski` (lines 154-180).  The pan shift is applied in the `else` branch only. -/
def drawSierpinski (v : Viewport R) (x1 y1 x2 y2 x3 y3 : Int) (depth : Nat) : List Segment :=
  match depth with
  | 0 => drawTriangle x1 y1 x2 y2 x3 y3
  | d + 1 =>
    let x1 := toInt ((x1 : R) - v.centerX)
    let y1 := toInt ((y1 : R) - v.centerY)
    let x2 := toInt ((x2 : R) - v.centerX)
    let y2 := toInt ((y2 : R) - v.centerY)
    let x3 := toInt ((x3 : R) - v.centerX)
    let y3 := toInt ((y3 : R) - v.centerY)
    let x12 := Int.tdiv (x1 + x2) 2
    let y12 := Int.tdiv (y1 + y2) 2
    let x23 := Int.tdiv (x2 + x3) 2
    let y23 := Int.tdiv (y2 + y3) 2
    let x31 := Int.tdiv (x3 + x1) 2
    let y31 := Int.tdiv (y3 + y1) 2
    drawSierpinski v x1 y1 x12 y12 x31 y31 d
      ++ drawSierpinski v x12 y12 x2 y2 x23 y23 d
      ++ drawSierpinski v x31 y31 x23 y23 x3 y3 d

/-- `drawTree` (lines 228-250). -/
def drawTree (m : MathLib R) (v : Viewport R) (x y : Int) (length angle : R) (depth : Nat) :
    List Segment :=
  match depth with
  | 0 => []
  | d + 1 =>
    let x2 := x + toInt (length * m.cos angle)
    let y2 := y - toInt (length * m.sin angle)
    let newLength1 := length * 0.7
    let newLength2 := length * 0.7
    let newAngle1 := angle + m.M_PI / 6
    let newAngle2 := angle - m.M_PI / 6
    (⟨toInt ((x : R) + v.centerX), toInt ((y : R) + v.centerY), x2, y2⟩ : Segment)
      :: (drawTree m v x2 y2 newLength1 newAngle1 d
        ++ drawTree m v x2 y2 newLength2 newAngle2 d)

/-- The re-assignment `x1 = (x1 - centerX);` of `drawKochLine` and `drawSierpinski`: an `int`
minus a `double`, truncated back to `int`. -/
def panShift (center : R) (x : Int) : Int := toInt ((x : R) - center)

end Generators

/-! ## Recursive generators with `int` depth and bounded call nesting

In the source `depth` is an `int`, and a call with a negative depth never reaches the base case.
The following versions take the depth as an `Int` and a bound `fuel` on the nesting depth of
calls; they return `none` when the bound is exhausted. -/

section FuelGenerators

variable [FloorRing R]

/-- `drawKochLine` (lines 100-129) with `int` depth and at most `fuel` nested calls. -/
def drawKochLineFuel (v : Viewport R) :
    Nat → Int → Int → Int → Int → Int → Option (List Segment)
  | 0, _, _, _, _, _ => none
  | fuel + 1, x1, y1, x2, y2, depth =>
    let x1 := toInt ((x1 : R) - v.centerX)
    let y1 := toInt ((y1 : R) - v.centerY)
    let x2 := toInt ((x2 : R) - v.centerX)
    let y2 := toInt ((y2 : R) - v.centerY)
    if depth = 0 then
      some [⟨x1, y1, x2, y2⟩]
    else
      let deltaX := x2 - x1
      let deltaY := y2 - y1
      let newX1 := x1 + Int.tdiv deltaX 3
      let newY1 := y1 + Int.tdiv deltaY 3
      let newX2 := x1 + Int.tdiv (2 * deltaX) 3
      let newY2 := y1 + Int.tdiv (2 * deltaY) 3
      let tipX := Int.tdiv (newX1 + newX2) 2 - Int.tdiv deltaY 3
      let tipY := Int.tdiv (newY1 + newY2) 2 + Int.tdiv deltaX 3
      (drawKochLineFuel v fuel x1 y1 newX1 newY1 (depth - 1)).bind fun a =>
      (drawKochLineFuel v fuel newX1 newY1 tipX tipY (depth - 1)).bind fun b =>
      (drawKochLineFuel v fuel tipX tipY newX2 newY2 (depth - 1)).bind fun c =>
      (drawKochLineFuel v fuel newX2 newY2 x2 y2 (depth - 1)).bind fun d =>
      some (a ++ b ++ c ++ d)

/-- `drawSierpinski` (lines 154-180) with `int` depth and at most `fuel` nested calls. -/
def drawSierpinskiFuel (v : Viewport R) :
    Nat → Int → Int → Int → Int → Int → Int → Int → Option (List Segment)
  | 0, _, _, _, _, _, _, _ => none
  | fuel + 1, x1, y1, x2, y2, x3, y3, depth =>
    if depth = 0 then
      some (drawTriangle x1 y1 x2 y2 x3 y3)
    else
      let x1 := toInt ((x1 : R) - v.centerX)
      let y1 := toInt ((y1 : R) - v.centerY)
      let x2 := toInt ((x2 : R) - v.centerX)
      let y2 := toInt ((y2 : R) - v.centerY)
      let x3 := toInt ((x3 : R) - v.centerX)
      let y3 := toInt ((y3 : R) - v.centerY)
      let x12 := Int.tdiv (x1 + x2) 2
      let y12 := Int.tdiv (y1 + y2) 2
      let x23 := Int.tdiv (x2 + x3) 2
      let y23 := Int.tdiv (y2 + y3) 2
      let x31 := Int.tdiv (x3 + x1) 2
      let y31 := Int.tdiv (y3 + y1) 2
      (drawSierpinskiFuel v fuel x1 y1 x12 y12 x31 y31 (depth - 1)).bind fun a =>
      (drawSierpinskiFuel v fuel x12 y12 x2 y2 x23 y23 (depth - 1)).bind fun b =>
      (drawSierpinskiFuel v fuel x31 y31 x23 y23 x3 y3 (depth - 1)).bind fun c =>
      some (a ++ b ++ c)

/-- `drawTree` (lines 228-250) with `int` depth and at most `fuel` nested calls. -/
def drawTreeFuel (m : MathLib R) (v : Viewport R) :
    Nat → Int → Int → R → R → Int → Option (List Segment)
  | 0, _, _, _, _, _ => none
  | fuel + 1, x, y, length, angle, depth =>
    if depth = 0 then
      some []
    else
      let x2 := x + toInt (length * m.cos angle)
      let y2 := y - toInt (length * m.sin angle)
      let newLength1 := length * 0.7
      let newLength2 := length * 0.7
      let newAngle1 := angle + m.M_PI / 6
      let newAngle2 := angle - m.M_PI / 6
      (drawTreeFuel m v fuel x2 y2 newLength1 newAngle1 (depth - 1)).bind fun a =>
      (drawTreeFuel m v fuel x2 y2 newLength2 newAngle2 (depth - 1)).bind fun b =>
      some ((⟨toInt ((x : R) + v.centerX), toInt ((y : R) + v.centerY), x2, y2⟩ : Segment)
        :: (a ++ b))

end FuelGenerators

/-- The subdivision step of `drawKochLine` (lines 115-123) on the shifted coordinates: the first
trisection point `(newX1, newY1)`, the apex `(tipX, tipY)` and the second trisection point
`(newX2, newY2)`. -/
def kochSubdivide (x1 y1 x2 y2 : Int) : (Int × Int) × (Int × Int) × (Int × Int) :=
  let deltaX := x2 - x1
  let deltaY := y2 - y1
  let newX1 := x1 + Int.tdiv deltaX 3
  let newY1 := y1 + Int.tdiv deltaY 3
  let newX2 := x1 + Int.tdiv (2 * deltaX) 3
  let newY2 := y1 + Int.tdiv (2 * deltaY) 3
  let tipX := Int.tdiv (newX1 + newX2) 2 - Int.tdiv deltaY 3
  let tipY := Int.tdiv (newY1 + newY2) 2 + Int.tdiv deltaX 3
  ((newX1, newY1), (tipX, tipY), (newX2, newY2))

/-! ## Paths of segments -/

/-- The first endpoint of a drawn line. -/
def Segment.start (s : Segment) : Int × Int := (s.x1, s.y1)

/-- The second endpoint of a drawn line. -/
def Segment.stop (s : Segment) : Int × Int := (s.x2, s.y2)

/-- Segment `a` ends where segment `b` starts. -/
def Joined (a b : Segment) : Prop := a.stop = b.start

instance : DecidableRel Joined := fun a b => inferInstanceAs (Decidable (a.stop = b.start))

/-- The segments of `l`, in order, form a connected path from `p` to `q`: the first segment
starts at `p`, each segment ends where the next one starts, and the last segment ends at
`q`. -/
def IsPath (l : List Segment) (p q : Int × Int) : Prop :=
  l.head?.map Segment.start = some p ∧ List.Chain' Joined l
    ∧ l.getLast?.map Segment.stop = some q

instance (l : List Segment) (p q : Int × Int) : Decidable (IsPath l p q) :=
  inferInstanceAs (Decidable (_ ∧ _ ∧ _))

/-! ## Mouse clicks -/

/-- The value of `e.button.button` as far as `main` distinguishes it. -/
inductive Button where
  | left
  | right
  | other
  deriving DecidableEq, Repr

/-- The `SDL_MOUSEBUTTONDOWN` branch of `main` (lines 287-307): the effect of one click at
pixel `(px, py)` (`e.button.x`, `e.button.y`) on the globals. -/
def mouseButtonDown (v : Viewport R) (button : Button) (px py : Int) : Viewport R :=
  match button with
  | Button.left =>
    let mouseX := ((2.0 * (px : R) / (WIDTH : R) - 1.0) - v.centerX) * v.scale
    let mouseY := ((2.0 * (py : R) / (HEIGHT : R) - 1.0) - v.centerY) * v.scale
    { centerX := v.centerX + mouseX, centerY := v.centerY + mouseY, scale := v.scale * 1.2 }
  | Button.right =>
    let mouseX := ((2.0 * (px : R) / (WIDTH : R) - 1.0) - v.centerX) * v.scale
    let mouseY := ((2.0 * (py : R) / (HEIGHT : R) - 1.0) - v.centerY) * v.scale
    { centerX := v.centerX + mouseX, centerY := v.centerY + mouseY, scale := v.scale * 0.7 }
  | Button.other => v

/-- One `SDL_MOUSEBUTTONDOWN` event: the button and the pixel. -/
structure Click where
  button : Button
  x : Int
  y : Int
  deriving DecidableEq, Repr

/-! ## `double` arithmetic on the zoom factor

The exact-field model of `double` is not faithful for `scale`: repeated `scale *= 0.7`
underflows.  The zoom factor and the divisors of the pixel-to-plane transform are therefore
also modelled in IEEE-754 binary64 with round-to-nearest-even.  Every finite `double` is an
integer multiple of the smallest subnormal `2^(-1074)`; a non-negative finite value is
represented by that integer.  Only non-negative values occur (`scale`, `0.5`, `1.2`, `0.7`,
`WIDTH`, `HEIGHT`). -/

/-- A non-negative `double`: `fin m` is the finite value `m * 2^(-1074)`, `inf` is `+∞`, `nan`
is a NaN. -/
inductive Dbl where
  | fin (m : Nat)
  | inf
  | nan
  deriving DecidableEq, Repr

/-- The quotient `n / d` rounded to the nearest integer, ties to the even integer. -/
def roundNearestEven (n d : Nat) : Nat :=
  let q := n / d
  let r := n % d
  if 2 * r < d then q else if d < 2 * r then q + 1 else if q % 2 = 0 then q else q + 1

/-- The exponent of the spacing of the doubles around `v * 2^(-1074)`: `0` below `2^53` (the
subnormals and the first normal binade have spacing `2^(-1074)`), and one more for each further
binade.  The first argument bounds the recursion; any bound of at least the result, such as `v`
itself, gives the same value (`binadeShift_eq`). -/
def binadeShift : Nat → Nat → Nat
  | 0, _ => 0
  | k + 1, v => if v < 2 ^ 53 then 0 else binadeShift k (v / 2) + 1

/-- The value `1.0` in units of `2^(-1074)`. -/
@[irreducible] def unitsOne : Nat := 2 ^ 1074

/-- The value `2^1024`, the first power of two above the largest finite `double`, in units of
`2^(-1074)`. -/
@[irreducible] def unitsInf : Nat := 2 ^ 2098

/-- The non-negative rational `n / d`, in units of `2^(-1074)`, rounded to the nearest
`double` (ties to even); `+∞` when the rounded value reaches `2^1024`. -/
def roundDouble (n d : Nat) : Dbl :=
  let e := binadeShift (n / d) (n / d)
  let r := roundNearestEven n (d * 2 ^ e) * 2 ^ e
  if r < unitsInf then Dbl.fin r else Dbl.inf

/-- Multiplication of non-negative `double` values: the exact product `a * b * 2^(-2148)` is
`a * b / 2^1074` units, rounded. -/
def Dbl.mul : Dbl → Dbl → Dbl
  | Dbl.fin a, Dbl.fin b => roundDouble (a * b) unitsOne
  | Dbl.fin a, Dbl.inf => if a = 0 then Dbl.nan else Dbl.inf
  | Dbl.inf, Dbl.fin b => if b = 0 then Dbl.nan else Dbl.inf
  | Dbl.inf, Dbl.inf => Dbl.inf
  | _, _ => Dbl.nan

/-- The value is strictly positive: a non-zero finite value or `+∞`. -/
def Dbl.Pos : Dbl → Prop
  | Dbl.fin m => 0 < m
  | Dbl.inf => True
  | Dbl.nan => False

/-- The literal `0.9` (line 26): the double `0x1.ccccccccccccdp-1 = 8106479329266893 * 2^(-53)`. -/
def scaleInit : Dbl := Dbl.fin (8106479329266893 * 2 ^ 1021)

/-- The literal `1.2` (line 296): the double `0x1.3333333333333p+0 = 5404319552844595 * 2^(-52)`. -/
def zoomIn : Dbl := Dbl.fin (5404319552844595 * 2 ^ 1022)

/-- The literal `0.7` (line 305): the double `0x1.6666666666666p-1 = 3152519739159347 * 2^(-52)`. -/
def zoomOut : Dbl := Dbl.fin (3152519739159347 * 2 ^ 1022)

/-- The value `0.5` in units of `2^(-1074)`. -/
@[irreducible] def unitsHalf : Nat := 2 ^ 1073

/-- The literal `0.5` (lines 50-51). -/
def half : Dbl := Dbl.fin unitsHalf

/-- `WIDTH` converted to `double`: `800.0`. -/
def widthD : Dbl := Dbl.fin (800 * unitsOne)

/-- `HEIGHT` converted to `double`: `600.0`. -/
def heightD : Dbl := Dbl.fin (600 * unitsOne)

/-- The update of `scale` in the `SDL_MOUSEBUTTONDOWN` branch of `main` (lines 296 and 305), in
`double` arithmetic. -/
def scaleClick (button : Button) (scale : Dbl) : Dbl :=
  match button with
  | Button.left => scale.mul zoomIn
  | Button.right => scale.mul zoomOut
  | Button.other => scale

/-- The value of `scale` after a finite sequence of clicks from start-up (`scale = 0.9`); the
update of `scale` does not read the pixel. -/
def scaleAfter (es : List Click) : Dbl :=
  es.foldl (fun s e => scaleClick e.button s) scaleInit

/-- The divisor `0.5 * scale * WIDTH` of line 50, in `double` arithmetic. -/
def divisorX (scale : Dbl) : Dbl := (half.mul scale).mul widthD

/-- The divisor `0.5 * scale * HEIGHT` of line 51, in `double` arithmetic. -/
def divisorY (scale : Dbl) : Dbl := (half.mul scale).mul heightD

/-- The exponent `e` is the spacing exponent of the binade of `v`. -/
def shiftOk (v e : Nat) : Bool :=
  decide (v < 2 ^ (53 + e)) && (e == 0 || decide (2 ^ (52 + e) ≤ v))

/-- The product of `a` and `c` units rounded as in `Dbl.mul`, the spacing exponent being looked
for at `hint` and `hint - 1` only; returns the result and its spacing exponent. -/
def stepFast (c a hint : Nat) : Option (Nat × Nat) :=
  let n := a * c
  let v := n / unitsOne
  if shiftOk v hint then
    let r := roundNearestEven n (unitsOne * 2 ^ hint) * 2 ^ hint
    if r < unitsInf then some (r, hint) else none
  else if shiftOk v (hint - 1) then
    let r := roundNearestEven n (unitsOne * 2 ^ (hint - 1)) * 2 ^ (hint - 1)
    if r < unitsInf then some (r, hint - 1) else none
  else none

/-- `k` successive multiplications by `c` units, by `stepFast`. -/
def iterFast (c : Nat) : Nat → Nat → Nat → Option (Nat × Nat)
  | 0, a, h => some (a, h)
  | k + 1, a, h =>
    match stepFast c a h with
    | some (b, h') => iterFast c k b h'
    | none => none

/-! ## Pixel renderers -/

/-- `const double MIN_X = -2.0;` -/
def MIN_X : R := -2.0

/-- `const double MAX_X = 2.0;` -/
def MAX_X : R := 2.0

/-- `const double MIN_Y = -1.5;` -/
def MIN_Y : R := -1.5

/-- `const double MAX_Y = 1.5;` -/
def MAX_Y : R := 1.5

/-- One `SDL_RenderDrawPoint(gRenderer, x, y)` call together with the draw colour
`(r, g, b, a)` set by the preceding `SDL_SetRenderDrawColor`. -/
structure Plot where
  x : Int
  y : Int
  r : Int
  g : Int
  b : Int
  a : Int
  deriving DecidableEq, Repr

/-- Conversion of an `int` argument to the `Uint8` parameter of `SDL_SetRenderDrawColor`. -/
def toUint8 (n : Int) : Int := n % 256

/-- The body of the two `for` loops of `drawMandelbrot` (lines 50-68) for the pixel
`(x, y)`. -/
def mandelbrotPixel (v : Viewport R) (x y : Int) : Plot :=
  let zx := ((x : R) - (WIDTH : R) / 2.0) / (0.5 * v.scale * (WIDTH : R)) + v.centerX
  let zy := ((y : R) - (HEIGHT : R) / 2.0) / (0.5 * v.scale * (HEIGHT : R)) + v.centerY
  let iter := mandelbrotIter 100 zx zy
  let color := color iter 100
  ⟨x, y, toUint8 color, toUint8 color, toUint8 color, 255⟩

/-- `drawMandelbrot` (lines 44-72): `x` runs over `0 .. WIDTH - 1` in the outer loop, `y` over
`0 .. HEIGHT - 1` in the inner loop. -/
def drawMandelbrot (v : Viewport R) : List Plot :=
  (List.range WIDTH.toNat).flatMap fun (x : Nat) =>
    (List.range HEIGHT.toNat).map fun (y : Nat) => mandelbrotPixel v (x : Int) (y : Int)

/-- The body of the two `for` loops of `drawJuliaSet` (lines 80-94) for the pixel `(x, y)`;
`c` is the global Julia constant. -/
def juliaPixel (cabs : R × R → R) (c : R × R) (x y : Int) : Plot :=
  let zx := MIN_X + (MAX_X - MIN_X) * (x : R) / (WIDTH : R)
  let zy := MIN_Y + (MAX_Y - MIN_Y) * (y : R) / (HEIGHT : R)
  let iter := juliaIter cabs BOUNDARY MAX_ITERATIONS c zx zy
  let color := color iter MAX_ITERATIONS
  ⟨x, y, toUint8 color, toUint8 color, toUint8 color, 255⟩

/-- `drawJuliaSet` (lines 74-98).  The globals `centerX`, `centerY`, `scale` are in scope but
the function reads only the global `c`. -/
def drawJuliaSet (cabs : R × R → R) (_v : Viewport R) (c : R × R) : List Plot :=
  (List.range WIDTH.toNat).flatMap fun (x : Nat) =>
    (List.range HEIGHT.toNat).map fun (y : Nat) => juliaPixel cabs c (x : Int) (y : Int)

/-! ## Barnsley fern -/

/-- The body of the loop of `drawBarnsleyFern` up to `x = x1; y = y1;` (lines 193-216): from
the draw `r` and the current point, the next point. -/
def fernStep (r : R) (p : R × R) : R × R :=
  if r ≤ 1.0 then
    (0.0, 0.16 * p.2)
  else if r ≤ 86.0 then
    (0.85 * p.1 + 0.04 * p.2, -0.04 * p.1 + 0.85 * p.2 + 1.6)
  else if r ≤ 93.0 then
    (0.2 * p.1 - 0.26 * p.2, 0.23 * p.1 + 0.22 * p.2 + 1.6)
  else
    (-0.15 * p.1 + 0.28 * p.2, 0.26 * p.1 + 0.24 * p.2 + 0.44)

/-- The points produced by the loop of `drawBarnsleyFern` from the current point, one for each
draw of `dis(gen)`, in order. -/
def fernPoints : List R → R × R → List (R × R)
  | [], _ => []
  | r :: rs, p => fernStep r p :: fernPoints rs (fernStep r p)

/-- The first branch of `drawBarnsleyFern` (line 196): the stem map. -/
def stemMap (p : R × R) : R × R := (0.0, 0.16 * p.2)

/-- The second branch of `drawBarnsleyFern` (line 201): the large-leaflet map. -/
def largeLeafletMap (p : R × R) : R × R :=
  (0.85 * p.1 + 0.04 * p.2, -0.04 * p.1 + 0.85 * p.2 + 1.6)

/-- The third branch of `drawBarnsleyFern` (line 206): the left-leaflet map. -/
def leftLeafletMap (p : R × R) : R × R :=
  (0.2 * p.1 - 0.26 * p.2, 0.23 * p.1 + 0.22 * p.2 + 1.6)

/-- The fourth branch of `drawBarnsleyFern` (line 211): the right-leaflet map. -/
def rightLeafletMap (p : R × R) : R × R :=
  (-0.15 * p.1 + 0.28 * p.2, 0.26 * p.1 + 0.24 * p.2 + 0.44)

/-- `drawBarnsleyFern` (lines 182-226); `dis i` is the value of the `i`-th call of
`dis(gen)`. -/
def drawBarnsleyFern [FloorRing R] (dis : Nat → R) : List Plot :=
  (fernPoints ((List.range 100000).map dis) (0.0, 0.0)).map fun p =>
    ⟨toInt ((WIDTH : R) / 2.0 + 50.0 * p.1), toInt ((HEIGHT : R) - 50.0 * p.2), 0, 255, 0, 255⟩

/-- A convex polygon that contains `(0, 0)`, lies inside `[-3, 3] × [0, 10]` and is mapped
into itself by each of the four affine maps of `drawBarnsleyFern`; it is given by its
supporting half-planes. -/
structure FernRegion (x y : R) : Prop where
  f0 : x ≤ 2.666661
  f1 : y ≤ 9.999726
  f2 : -x ≤ 2.18623
  f3 : -x - y ≤ 0.00001
  f4 : -y ≤ 0
  f5 : -0.047 * x + y ≤ 9.882164
  f6 : -0.094 * x + y ≤ 9.765961
  f7 : -0.142 * x + y ≤ 9.64892
  f8 : -0.19 * x + y ≤ 9.533787
  f9 : -0.24 * x + y ≤ 9.416176
  f10 : -0.29 * x + y ≤ 9.301286
  f11 : -0.342 * x + y ≤ 9.185061
  f12 : -0.395 * x + y ≤ 9.070436
  f13 : -0.45 * x + y ≤ 8.956053
  f14 : -0.508 * x + y ≤ 8.841026
  f15 : -0.569 * x + y ≤ 8.726831
  f16 : -0.633 * x + y ≤ 8.615193
  f17 : -0.701 * x + y ≤ 8.506453
  f18 : -0.773 * x + y ≤ 8.403128
  f19 : -0.851 * x + y ≤ 8.305821
  f20 : -0.936 * x + y ≤ 8.217815
  f21 : -1.028 * x + y ≤ 8.144577
  f22 : -1.13 * x + y ≤ 8.090746
  f23 : -1.243 * x + y ≤ 8.065013
  f24 : -1.371 * x + y ≤ 8.078509
  f25 : -1.515 * x + y ≤ 8.146662
  f26 : -1.682 * x + y ≤ 8.293223
  f27 : -2.112 * x + y ≤ 8.86016

/-! ## Escape-time loops: unfolding and bounds -/

theorem mandelbrotLoop_continue (maxIter : Int) (cx cy zx zy : R) (iter : Int)
    (hz : zx * zx + zy * zy < 4) (hi : iter < maxIter) :
    mandelbrotLoop maxIter cx cy zx zy iter
      = mandelbrotLoop maxIter cx cy (zx * zx - zy * zy + cx) (2 * zx * zy + cy) (iter + 1) := by
  rw [mandelbrotLoop, dif_pos ⟨hz, hi⟩]

theorem mandelbrotLoop_exit (maxIter : Int) (cx cy zx zy : R) (iter : Int)
    (h : ¬ (zx * zx + zy * zy < 4 ∧ iter < maxIter)) :
    mandelbrotLoop maxIter cx cy zx zy iter = iter := by
  rw [mandelbrotLoop, dif_neg h]

theorem juliaLoop_continue (cabs : R × R → R) (boundary : R) (maxIter : Int) (c z : R × R)
    (iter : Int) (hz : cabs z < boundary) (hi : iter < maxIter) :
    juliaLoop cabs boundary maxIter c z iter
      = juliaLoop cabs boundary maxIter c (cadd (cmul z z) c) (iter + 1) := by
  rw [juliaLoop, dif_pos ⟨hz, hi⟩]

theorem juliaLoop_exit (cabs : R × R → R) (boundary : R) (maxIter : Int) (c z : R × R)
    (iter : Int) (h : ¬ (cabs z < boundary ∧ iter < maxIter)) :
    juliaLoop cabs boundary maxIter c z iter = iter := by
  rw [juliaLoop, dif_neg h]

/-- From a loop state with `iter ≤ maxIter` the Mandelbrot loop returns a value between
`iter` and `maxIter`. -/
theorem mandelbrotLoop_bounds (maxIter : Int) (cx cy : R) :
    ∀ (n : Nat) (zx zy : R) (iter : Int), (maxIter - iter).toNat = n → iter ≤ maxIter →
      iter ≤ mandelbrotLoop maxIter cx cy zx zy iter
        ∧ mandelbrotLoop maxIter cx cy zx zy iter ≤ maxIter := by
  intro n
  induction n with
  | zero =>
    intro zx zy iter hn hle
    rw [mandelbrotLoop_exit maxIter cx cy zx zy iter (by rintro ⟨_, h⟩; omega)]
    exact ⟨le_refl _, hle⟩
  | succ k ih =>
    intro zx zy iter hn hle
    by_cases h : zx * zx + zy * zy < 4 ∧ iter < maxIter
    · rw [mandelbrotLoop_continue maxIter cx cy zx zy iter h.1 h.2]
      have := ih (zx * zx - zy * zy + cx) (2 * zx * zy + cy) (iter + 1) (by omega) (by omega)
      exact ⟨by omega, this.2⟩
    · rw [mandelbrotLoop_exit maxIter cx cy zx zy iter h]
      exact ⟨le_refl _, hle⟩

/-- From a loop state with `iter ≤ maxIter` the Julia loop returns a value between `iter`
and `maxIter`. -/
theorem juliaLoop_bounds (cabs : R × R → R) (boundary : R) (maxIter : Int) (c : R × R) :
    ∀ (n : Nat) (z : R × R) (iter : Int), (maxIter - iter).toNat = n → iter ≤ maxIter →
      iter ≤ juliaLoop cabs boundary maxIter c z iter
        ∧ juliaLoop cabs boundary maxIter c z iter ≤ maxIter := by
  intro n
  induction n with
  | zero =>
    intro z iter hn hle
    rw [juliaLoop_exit cabs boundary maxIter c z iter (by rintro ⟨_, h⟩; omega)]
    exact ⟨le_refl _, hle⟩
  | succ k ih =>
    intro z iter hn hle
    by_cases h : cabs z < boundary ∧ iter < maxIter
    · rw [juliaLoop_continue cabs boundary maxIter c z iter h.1 h.2]
      have := ih (cadd (cmul z z) c) (iter + 1) (by omega) (by omega)
      exact ⟨by omega, this.2⟩
    · rw [juliaLoop_exit cabs boundary maxIter c z iter h]
      exact ⟨le_refl _, hle⟩

/-- The Mandelbrot loop run with the smaller cap returns the result of the larger cap,
truncated at the smaller cap. -/
theorem mandelbrotLoop_min (m1 m2 : Int) (hm : m1 ≤ m2) (cx cy : R) :
    ∀ (n : Nat) (zx zy : R) (iter : Int), (m1 - iter).toNat = n → iter ≤ m1 →
      mandelbrotLoop m1 cx cy zx zy iter = min m1 (mandelbrotLoop m2 cx cy zx zy iter) := by
  intro n
  induction n with
  | zero =>
    intro zx zy iter hn hle
    rw [mandelbrotLoop_exit m1 cx cy zx zy iter (by rintro ⟨_, h⟩; omega)]
    have := (mandelbrotLoop_bounds m2 cx cy _ zx zy iter rfl (by omega)).1
    omega
  | succ k ih =>
    intro zx zy iter hn hle
    by_cases hz : zx * zx + zy * zy < 4
    · rw [mandelbrotLoop_continue m1 cx cy zx zy iter hz (by omega),
        mandelbrotLoop_continue m2 cx cy zx zy iter hz (by omega)]
      exact ih _ _ (iter + 1) (by omega) (by omega)
    · rw [mandelbrotLoop_exit m1 cx cy zx zy iter (fun h => hz h.1),
        mandelbrotLoop_exit m2 cx cy zx zy iter (fun h => hz h.1)]
      omega

/-- The Julia loop run with the smaller cap returns the result of the larger cap, truncated
at the smaller cap. -/
theorem juliaLoop_min (cabs : R × R → R) (boundary : R) (m1 m2 : Int) (hm : m1 ≤ m2)
    (c : R × R) :
    ∀ (n : Nat) (z : R × R) (iter : Int), (m1 - iter).toNat = n → iter ≤ m1 →
      juliaLoop cabs boundary m1 c z iter = min m1 (juliaLoop cabs boundary m2 c z iter) := by
  intro n
  induction n with
  | zero =>
    intro z iter hn hle
    rw [juliaLoop_exit cabs boundary m1 c z iter (by rintro ⟨_, h⟩; omega)]
    have := (juliaLoop_bounds cabs boundary m2 c _ z iter rfl (by omega)).1
    omega
  | succ k ih =>
    intro z iter hn hle
    by_cases hz : cabs z < boundary
    · rw [juliaLoop_continue cabs boundary m1 c z iter hz (by omega),
        juliaLoop_continue cabs boundary m2 c z iter hz (by omega)]
      exact ih _ (iter + 1) (by omega) (by omega)
    · rw [juliaLoop_exit cabs boundary m1 c z iter (fun h => hz h.1),
        juliaLoop_exit cabs boundary m2 c z iter (fun h => hz h.1)]
      omega

/-- Started at `iter = 0`, the Mandelbrot loop never returns a negative count. -/
theorem mandelbrotLoop_nonneg (maxIter : Int) (cx cy zx zy : R) :
    0 ≤ mandelbrotLoop maxIter cx cy zx zy 0 := by
  by_cases h : 0 ≤ maxIter
  · exact (mandelbrotLoop_bounds maxIter cx cy _ zx zy 0 rfl h).1
  · rw [mandelbrotLoop_exit maxIter cx cy zx zy 0 (by rintro ⟨_, h2⟩; omega)]

/-- Started at `iter = 0`, the Julia loop never returns a negative count. -/
theorem juliaLoop_nonneg (cabs : R × R → R) (boundary : R) (maxIter : Int) (c z : R × R) :
    0 ≤ juliaLoop cabs boundary maxIter c z 0 := by
  by_cases h : 0 ≤ maxIter
  · exact (juliaLoop_bounds cabs boundary maxIter c _ z 0 rfl h).1
  · rw [juliaLoop_exit cabs boundary maxIter c z 0 (by rintro ⟨_, h2⟩; omega)]

/-- With `c = 0` the orbit of `0` stays at `0`, so the Mandelbrot loop runs up to the cap. -/
theorem mandelbrotLoop_origin (maxIter : Int) :
    ∀ (n : Nat) (iter : Int), (maxIter - iter).toNat = n → iter ≤ maxIter →
      mandelbrotLoop maxIter (0 : R) 0 0 0 iter = maxIter := by
  intro n
  induction n with
  | zero =>
    intro iter hn hle
    rw [mandelbrotLoop_exit maxIter 0 0 0 0 iter (by rintro ⟨_, h⟩; omega)]
    omega
  | succ k ih =>
    intro iter hn hle
    rw [mandelbrotLoop_continue maxIter 0 0 0 0 iter (by norm_num) (by omega)]
    have h := ih (iter + 1) (by omega) (by omega)
    simpa using h

/-! ## Escape-time loops: the claims -/

/-- C1: for every start point `z0`, every constant `c` and every cap `maxIter ≥ 0`, the
Mandelbrot loop and the Julia loop (for any magnitude function and boundary), entered with
`iter = 0`, return a count `n` with `0 ≤ n ≤ maxIter`. -/
theorem escapeCount_bounded (maxIter : Int) (hmax : 0 ≤ maxIter) (c z0 : R × R)
    (cabs : R × R → R) (boundary : R) :
    (0 ≤ mandelbrotLoop maxIter c.1 c.2 z0.1 z0.2 0
        ∧ mandelbrotLoop maxIter c.1 c.2 z0.1 z0.2 0 ≤ maxIter)
      ∧ (0 ≤ juliaLoop cabs boundary maxIter c z0 0
        ∧ juliaLoop cabs boundary maxIter c z0 0 ≤ maxIter) :=
  ⟨mandelbrotLoop_bounds maxIter c.1 c.2 _ z0.1 z0.2 0 rfl hmax,
    juliaLoop_bounds cabs boundary maxIter c _ z0 0 rfl hmax⟩

/-- Witness for C1: cap 100, constant `(-4/5, 39/250)`, start `(1/2, 1/2)`, over `ℚ`. -/
theorem escapeCount_bounded_witness :
    (0 : Int) ≤ 100
      ∧ ((0 ≤ mandelbrotLoop 100 (-4/5 : ℚ) (39/250) (1/2) (1/2) 0
          ∧ mandelbrotLoop 100 (-4/5 : ℚ) (39/250) (1/2) (1/2) 0 ≤ 100)
        ∧ (0 ≤ juliaLoop (fun z : ℚ × ℚ => z.1 * z.1 + z.2 * z.2) 4 100
              (-4/5, 39/250) (1/2, 1/2) 0
          ∧ juliaLoop (fun z : ℚ × ℚ => z.1 * z.1 + z.2 * z.2) 4 100
              (-4/5, 39/250) (1/2, 1/2) 0 ≤ 100)) :=
  ⟨by decide,
    escapeCount_bounded 100 (by decide) (-4/5, 39/250) (1/2, 1/2)
      (fun z : ℚ × ℚ => z.1 * z.1 + z.2 * z.2) 4⟩

/-- C2: the escape count is monotone in the cap.  For caps `m1 ≤ m2`, every start point,
constant, magnitude function and boundary, the count with cap `m1` is at most the count with
cap `m2`, and for `0 ≤ m1` it equals `min m1` of the count with cap `m2`; for both loops. -/
theorem escapeCount_monotone (m1 m2 : Int) (hm : m1 ≤ m2) (c z0 : R × R)
    (cabs : R × R → R) (boundary : R) :
    (mandelbrotLoop m1 c.1 c.2 z0.1 z0.2 0 ≤ mandelbrotLoop m2 c.1 c.2 z0.1 z0.2 0
        ∧ (0 ≤ m1 → mandelbrotLoop m1 c.1 c.2 z0.1 z0.2 0
            = min m1 (mandelbrotLoop m2 c.1 c.2 z0.1 z0.2 0)))
      ∧ (juliaLoop cabs boundary m1 c z0 0 ≤ juliaLoop cabs boundary m2 c z0 0
        ∧ (0 ≤ m1 → juliaLoop cabs boundary m1 c z0 0
            = min m1 (juliaLoop cabs boundary m2 c z0 0))) := by
  refine ⟨⟨?_, fun h0 => mandelbrotLoop_min m1 m2 hm c.1 c.2 _ z0.1 z0.2 0 rfl h0⟩,
    ⟨?_, fun h0 => juliaLoop_min cabs boundary m1 m2 hm c _ z0 0 rfl h0⟩⟩
  · by_cases h0 : 0 ≤ m1
    · rw [mandelbrotLoop_min m1 m2 hm c.1 c.2 _ z0.1 z0.2 0 rfl h0]
      exact min_le_right _ _
    · rw [mandelbrotLoop_exit m1 c.1 c.2 z0.1 z0.2 0 (by rintro ⟨_, h2⟩; omega)]
      exact mandelbrotLoop_nonneg m2 c.1 c.2 z0.1 z0.2
  · by_cases h0 : 0 ≤ m1
    · rw [juliaLoop_min cabs boundary m1 m2 hm c _ z0 0 rfl h0]
      exact min_le_right _ _
    · rw [juliaLoop_exit cabs boundary m1 c z0 0 (by rintro ⟨_, h2⟩; omega)]
      exact juliaLoop_nonneg cabs boundary m2 c z0

/-- Witness for C2: caps 3 and 10, constant `(-4/5, 39/250)`, start `(1/2, 1/2)`, over `ℚ`. -/
theorem escapeCount_monotone_witness :
    (3 : Int) ≤ 10
      ∧ ((mandelbrotLoop 3 (-4/5 : ℚ) (39/250) (1/2) (1/2) 0
            ≤ mandelbrotLoop 10 (-4/5 : ℚ) (39/250) (1/2) (1/2) 0
          ∧ ((0 : Int) ≤ 3 → mandelbrotLoop 3 (-4/5 : ℚ) (39/250) (1/2) (1/2) 0
              = min 3 (mandelbrotLoop 10 (-4/5 : ℚ) (39/250) (1/2) (1/2) 0)))
        ∧ (juliaLoop (fun z : ℚ × ℚ => z.1 * z.1 + z.2 * z.2) 4 3 (-4/5, 39/250) (1/2, 1/2) 0
            ≤ juliaLoop (fun z : ℚ × ℚ => z.1 * z.1 + z.2 * z.2) 4 10
                (-4/5, 39/250) (1/2, 1/2) 0
          ∧ ((0 : Int) ≤ 3 →
              juliaLoop (fun z : ℚ × ℚ => z.1 * z.1 + z.2 * z.2) 4 3 (-4/5, 39/250) (1/2, 1/2) 0
                = min 3 (juliaLoop (fun z : ℚ × ℚ => z.1 * z.1 + z.2 * z.2) 4 10
                    (-4/5, 39/250) (1/2, 1/2) 0)))) :=
  ⟨by decide,
    escapeCount_monotone 3 10 (by decide) (-4/5, 39/250) (1/2, 1/2)
      (fun z : ℚ × ℚ => z.1 * z.1 + z.2 * z.2) 4⟩

/-- C3: in Mandelbrot mode the plane point `(0, 0)` does not escape: the loop of
`drawMandelbrot` entered with `c = z0 = (0, 0)` and cap 100 returns exactly 100. -/
theorem mandelbrot_origin_never_escapes : mandelbrotIter 100 (0 : R) 0 = 100 :=
  mandelbrotLoop_origin 100 _ 0 rfl (by decide)

/-- C4: in Mandelbrot mode a point `p` with `|p|² ≥ 4` escapes immediately: for every cap the
loop of `drawMandelbrot` entered with `c = z0 = p` returns 0. -/
theorem mandelbrot_outside_escapes_immediately (p : R × R)
    (hp : 4 ≤ p.1 * p.1 + p.2 * p.2) (maxIter : Int) :
    mandelbrotIter maxIter p.1 p.2 = 0 :=
  mandelbrotLoop_exit maxIter p.1 p.2 p.1 p.2 0 (fun h => absurd h.1 (not_lt.mpr hp))

/-- Witness for C4: the plane point `(2, 2)` with cap 100, over `ℚ`. -/
theorem mandelbrot_outside_escapes_immediately_witness :
    (4 : ℚ) ≤ 2 * 2 + 2 * 2 ∧ mandelbrotIter 100 (2 : ℚ) 2 = 0 :=
  ⟨by norm_num, mandelbrot_outside_escapes_immediately (2, 2) (by norm_num) 100⟩

/-! ## Recursive generators: segment counts -/

section GeneratorTheorems

variable [FloorRing R]

theorem drawKochLine_length (v : Viewport R) :
    ∀ (k : Nat) (x1 y1 x2 y2 : Int), (drawKochLine v x1 y1 x2 y2 k).length = 4 ^ k := by
  intro k
  induction k with
  | zero => intro x1 y1 x2 y2; simp [drawKochLine]
  | succ d ih =>
    intro x1 y1 x2 y2
    simp only [drawKochLine, List.length_append, ih]
    ring

/-- C5: for every segment, every depth `k` and every pan offset, `drawKochLine` emits exactly
`4 ^ k` line segments (one at depth 0), and `drawKochSnowflake` at depth `k` emits exactly
`3 * 4 ^ k`. -/
theorem koch_segment_count (m : MathLib R) (v : Viewport R) (k : Nat) :
    (∀ x1 y1 x2 y2 : Int, (drawKochLine v x1 y1 x2 y2 k).length = 4 ^ k)
      ∧ (∀ x1 y1 x2 y2 : Int, (drawKochLine v x1 y1 x2 y2 0).length = 1)
      ∧ (∀ x y size : Int, (drawKochSnowflake m v x y size k).length = 3 * 4 ^ k) := by
  refine ⟨drawKochLine_length v k, fun x1 y1 x2 y2 => ?_, fun x y size => ?_⟩
  · simpa using drawKochLine_length v 0 x1 y1 x2 y2
  · simp only [drawKochSnowflake, List.length_append, drawKochLine_length]
    ring

theorem drawSierpinski_length (v : Viewport R) :
    ∀ (k : Nat) (x1 y1 x2 y2 x3 y3 : Int),
      (drawSierpinski v x1 y1 x2 y2 x3 y3 k).length = 3 ^ (k + 1) := by
  intro k
  induction k with
  | zero => intro x1 y1 x2 y2 x3 y3; simp [drawSierpinski, drawTriangle]
  | succ d ih =>
    intro x1 y1 x2 y2 x3 y3
    simp only [drawSierpinski, List.length_append, ih]
    ring

theorem drawTree_length (m : MathLib R) (v : Viewport R) :
    ∀ (k : Nat) (x y : Int) (length angle : R),
      (drawTree m v x y length angle k).length = 2 ^ k - 1 := by
  intro k
  induction k with
  | zero => intro x y length angle; simp [drawTree]
  | succ d ih =>
    intro x y length angle
    simp only [drawTree, List.length_cons, List.length_append, ih]
    have h1 : 1 ≤ 2 ^ d := Nat.one_le_two_pow
    have h2 : 2 ^ (d + 1) = 2 * 2 ^ d := by ring
    omega

/-! ## Koch curve: the emitted segments form a path -/

theorem isPath_singleton (s : Segment) : IsPath [s] s.start s.stop := by
  simp [IsPath]

theorem IsPath.ne_nil {l : List Segment} {p q : Int × Int} (h : IsPath l p q) : l ≠ [] := by
  rintro rfl
  simp [IsPath] at h

/-- Two paths that meet end to start concatenate to a path. -/
theorem IsPath.append {l₁ l₂ : List Segment} {p q r : Int × Int}
    (h₁ : IsPath l₁ p q) (h₂ : IsPath l₂ q r) : IsPath (l₁ ++ l₂) p r := by
  have n₁ := h₁.ne_nil
  have n₂ := h₂.ne_nil
  obtain ⟨a₁, b₁, c₁⟩ := h₁
  obtain ⟨a₂, b₂, c₂⟩ := h₂
  refine ⟨?_, ?_, ?_⟩
  · rw [List.head?_append_of_ne_nil _ n₁]
    exact a₁
  · rw [List.chain'_append]
    refine ⟨b₁, b₂, ?_⟩
    intro x hx y hy
    rw [Option.mem_def] at hx hy
    rw [hx] at c₁
    rw [hy] at a₂
    simp only [Option.map_some', Option.some.injEq] at c₁ a₂
    show x.stop = y.start
    rw [c₁, a₂]
  · rw [List.getLast?_append_of_ne_nil _ n₂]
    exact c₂

/-- With a zero pan offset the shift is the identity. -/
theorem panShift_zero (x : Int) : panShift (0 : R) x = x := by
  unfold panShift toInt
  rw [sub_zero]
  split <;> simp

/-- At depth `k` the segments emitted by `drawKochLine` form a path whose endpoints are the
input endpoints after `k + 1` pan shifts, one for each level of the recursion. -/
theorem drawKochLine_isPath (v : Viewport R) :
    ∀ (k : Nat) (x1 y1 x2 y2 : Int),
      IsPath (drawKochLine v x1 y1 x2 y2 k)
        ((panShift v.centerX)^[k + 1] x1, (panShift v.centerY)^[k + 1] y1)
        ((panShift v.centerX)^[k + 1] x2, (panShift v.centerY)^[k + 1] y2) := by
  intro k
  induction k with
  | zero =>
    intro x1 y1 x2 y2
    simp only [drawKochLine, zero_add, Function.iterate_one]
    exact isPath_singleton _
  | succ d ih =>
    intro x1 y1 x2 y2
    rw [Function.iterate_succ_apply (panShift v.centerX), Function.iterate_succ_apply
      (panShift v.centerY), Function.iterate_succ_apply (panShift v.centerX),
      Function.iterate_succ_apply (panShift v.centerY)]
    simp only [drawKochLine]
    exact (((ih _ _ _ _).append (ih _ _ _ _)).append (ih _ _ _ _)).append (ih _ _ _ _)

/-- C6 (amended): for every segment, every depth `k` and every pan offset, the segments
emitted by `drawKochLine`, in emission order, form a connected path (each segment ends where
the next one starts) whose two ends are the input start and the input end after the pan shift
`x ↦ (int)(x - center)` has been applied `k + 1` times; with a zero pan offset the path runs
from the input `(x1, y1)` to the input `(x2, y2)`; at depth 0 the single emitted segment is
the input segment shifted once by the pan offset, hence the input segment itself when the pan
offset is zero. -/
theorem koch_connected_path (v : Viewport R) (x1 y1 x2 y2 : Int) (k : Nat) :
    IsPath (drawKochLine v x1 y1 x2 y2 k)
        ((panShift v.centerX)^[k + 1] x1, (panShift v.centerY)^[k + 1] y1)
        ((panShift v.centerX)^[k + 1] x2, (panShift v.centerY)^[k + 1] y2)
      ∧ (v.centerX = 0 ∧ v.centerY = 0 →
          IsPath (drawKochLine v x1 y1 x2 y2 k) (x1, y1) (x2, y2))
      ∧ drawKochLine v x1 y1 x2 y2 0
          = [⟨panShift v.centerX x1, panShift v.centerY y1,
              panShift v.centerX x2, panShift v.centerY y2⟩]
      ∧ (v.centerX = 0 ∧ v.centerY = 0 →
          drawKochLine v x1 y1 x2 y2 0 = [⟨x1, y1, x2, y2⟩]) := by
  have hid : ∀ (n : Nat) (x : Int), (panShift (0 : R))^[n] x = x := by
    intro n
    induction n with
    | zero => intro x; rfl
    | succ d ih => intro x; rw [Function.iterate_succ_apply, panShift_zero, ih]
  refine ⟨drawKochLine_isPath v k x1 y1 x2 y2, ?_, ?_, ?_⟩
  · rintro ⟨hx, hy⟩
    have h := drawKochLine_isPath v k x1 y1 x2 y2
    rw [hx, hy] at h
    simpa only [hid] using h
  · simp [drawKochLine, panShift]
  · rintro ⟨hx, hy⟩
    have h1 : ∀ x : Int, toInt (x : R) = x := by
      intro x
      simpa [panShift] using panShift_zero (R := R) x
    simp [drawKochLine, hx, hy, h1]

/-- Witness for C6 (amended): zero pan offset, the segment `(0,0)-(9,0)` at depth 1, over
`ℚ`. -/
theorem koch_connected_path_witness :
    ((⟨0, 0, 1⟩ : Viewport ℚ).centerX = 0 ∧ (⟨0, 0, 1⟩ : Viewport ℚ).centerY = 0)
      ∧ IsPath (drawKochLine (⟨0, 0, 1⟩ : Viewport ℚ) 0 0 9 0 1) (0, 0) (9, 0) :=
  ⟨⟨rfl, rfl⟩, (koch_connected_path (⟨0, 0, 1⟩ : Viewport ℚ) 0 0 9 0 1).2.1 ⟨rfl, rfl⟩⟩

/-- Counterexample to C6 as stated: with pan offset `centerX = 1`, the segment
`(0,0)-(3,0)` at depth 0 is emitted as `(-1,0)-(2,0)`, which is not a path from the input
start `(0,0)` to the input end `(3,0)`. -/
theorem koch_connected_path_counterexample :
    drawKochLine (R := ℚ) ⟨1, 0, 1⟩ 0 0 3 0 0 = [⟨-1, 0, 2, 0⟩]
      ∧ ¬ IsPath (drawKochLine (R := ℚ) ⟨1, 0, 1⟩ 0 0 3 0 0) (0, 0) (3, 0) := by
  have h : drawKochLine (R := ℚ) ⟨1, 0, 1⟩ 0 0 3 0 0 = [⟨-1, 0, 2, 0⟩] := by
    simp [drawKochLine, toInt, Int.ceil_neg]
  rw [h]
  exact ⟨rfl, by decide⟩

/-! ## Sierpinski triangle and tree -/

/-- The triangles drawn by `drawSierpinski` at depth `k`: the output is the concatenation of
`drawTriangle` on `3 ^ k` triangles. -/
theorem drawSierpinski_triangles (v : Viewport R) :
    ∀ (k : Nat) (x1 y1 x2 y2 x3 y3 : Int),
      ∃ ts : List (Int × Int × Int × Int × Int × Int), ts.length = 3 ^ k
        ∧ drawSierpinski v x1 y1 x2 y2 x3 y3 k
          = ts.flatMap (fun t => drawTriangle t.1 t.2.1 t.2.2.1 t.2.2.2.1 t.2.2.2.2.1 t.2.2.2.2.2)
    := by
  intro k
  induction k with
  | zero =>
    intro x1 y1 x2 y2 x3 y3
    exact ⟨[(x1, y1, x2, y2, x3, y3)], by simp, by simp [drawSierpinski]⟩
  | succ d ih =>
    intro x1 y1 x2 y2 x3 y3
    simp only [drawSierpinski]
    obtain ⟨ta, la, ea⟩ := ih (toInt ((x1 : R) - v.centerX)) (toInt ((y1 : R) - v.centerY))
      (Int.tdiv (toInt ((x1 : R) - v.centerX) + toInt ((x2 : R) - v.centerX)) 2)
      (Int.tdiv (toInt ((y1 : R) - v.centerY) + toInt ((y2 : R) - v.centerY)) 2)
      (Int.tdiv (toInt ((x3 : R) - v.centerX) + toInt ((x1 : R) - v.centerX)) 2)
      (Int.tdiv (toInt ((y3 : R) - v.centerY) + toInt ((y1 : R) - v.centerY)) 2)
    obtain ⟨tb, lb, eb⟩ := ih
      (Int.tdiv (toInt ((x1 : R) - v.centerX) + toInt ((x2 : R) - v.centerX)) 2)
      (Int.tdiv (toInt ((y1 : R) - v.centerY) + toInt ((y2 : R) - v.centerY)) 2)
      (toInt ((x2 : R) - v.centerX)) (toInt ((y2 : R) - v.centerY))
      (Int.tdiv (toInt ((x2 : R) - v.centerX) + toInt ((x3 : R) - v.centerX)) 2)
      (Int.tdiv (toInt ((y2 : R) - v.centerY) + toInt ((y3 : R) - v.centerY)) 2)
    obtain ⟨tc, lc, ec⟩ := ih
      (Int.tdiv (toInt ((x3 : R) - v.centerX) + toInt ((x1 : R) - v.centerX)) 2)
      (Int.tdiv (toInt ((y3 : R) - v.centerY) + toInt ((y1 : R) - v.centerY)) 2)
      (Int.tdiv (toInt ((x2 : R) - v.centerX) + toInt ((x3 : R) - v.centerX)) 2)
      (Int.tdiv (toInt ((y2 : R) - v.centerY) + toInt ((y3 : R) - v.centerY)) 2)
      (toInt ((x3 : R) - v.centerX)) (toInt ((y3 : R) - v.centerY))
    refine ⟨ta ++ tb ++ tc, ?_, ?_⟩
    · simp only [List.length_append, la, lb, lc]
      ring
    · rw [ea, eb, ec, List.flatMap_append, List.flatMap_append]

/-- C7: for every triangle and every pan offset, `drawSierpinski` at depth 0 emits exactly the
three edges `(p1,p2)`, `(p2,p3)`, `(p3,p1)` of the triangle; at every depth `k` its output is
`drawTriangle` applied to exactly `3 ^ k` triangles, that is exactly `3 ^ (k + 1)` segments. -/
theorem sierpinski_segment_count (v : Viewport R) (x1 y1 x2 y2 x3 y3 : Int) (k : Nat) :
    drawSierpinski v x1 y1 x2 y2 x3 y3 0
        = [⟨x1, y1, x2, y2⟩, ⟨x2, y2, x3, y3⟩, ⟨x3, y3, x1, y1⟩]
      ∧ (∃ ts : List (Int × Int × Int × Int × Int × Int), ts.length = 3 ^ k
          ∧ drawSierpinski v x1 y1 x2 y2 x3 y3 k
            = ts.flatMap
                (fun t => drawTriangle t.1 t.2.1 t.2.2.1 t.2.2.2.1 t.2.2.2.2.1 t.2.2.2.2.2))
      ∧ (drawSierpinski v x1 y1 x2 y2 x3 y3 k).length = 3 ^ (k + 1) :=
  ⟨by simp [drawSierpinski, drawTriangle], drawSierpinski_triangles v k x1 y1 x2 y2 x3 y3,
    drawSierpinski_length v k x1 y1 x2 y2 x3 y3⟩

/-- C8: for every start position, length, angle and pan offset, `drawTree` at depth 0 emits
no segment and at every depth `k` emits exactly `2 ^ k - 1` segments (one less than
`2 ^ k`). -/
theorem tree_segment_count (m : MathLib R) (v : Viewport R) (x y : Int) (length angle : R)
    (k : Nat) :
    drawTree m v x y length angle 0 = []
      ∧ (drawTree m v x y length angle k).length = 2 ^ k - 1
      ∧ (drawTree m v x y length angle k).length + 1 = 2 ^ k := by
  have h := drawTree_length m v k x y length angle
  have h1 : 1 ≤ 2 ^ k := Nat.one_le_two_pow
  exact ⟨by simp [drawTree], h, by omega⟩

end GeneratorTheorems

/-! ## Mouse clicks -/

/-- Counterexample to C9 as stated: from the viewport `(centerX, centerY, scale) = (1, 2, 1)`
a left click at the centre pixel `(400, 300)` moves the centre to `(0, 0)`. -/
theorem center_click_counterexample :
    (⟨1, 2, 1⟩ : Viewport ℚ).scale = 1
      ∧ (mouseButtonDown (⟨1, 2, 1⟩ : Viewport ℚ) Button.left 400 300).centerX = 0
      ∧ (mouseButtonDown (⟨1, 2, 1⟩ : Viewport ℚ) Button.left 400 300).centerX
          ≠ (⟨1, 2, 1⟩ : Viewport ℚ).centerX := by
  norm_num [mouseButtonDown, WIDTH, HEIGHT]

/-- C9 (amended): for every viewport state with `scale = 1`, a left click at the centre pixel
`(400, 300)` adds the delta `(-centerX, -centerY)`: the new centre is `(0, 0)`, so `centerX`
and `centerY` are unchanged exactly when they were already `0`; `scale` is multiplied by
exactly `1.2`. -/
theorem center_click_scale_one (v : Viewport R) (hs : v.scale = 1) :
    (mouseButtonDown v Button.left 400 300).centerX = 0
      ∧ (mouseButtonDown v Button.left 400 300).centerY = 0
      ∧ (mouseButtonDown v Button.left 400 300).scale = v.scale * 1.2
      ∧ (((mouseButtonDown v Button.left 400 300).centerX = v.centerX
            ∧ (mouseButtonDown v Button.left 400 300).centerY = v.centerY)
          ↔ (v.centerX = 0 ∧ v.centerY = 0)) := by
  have hx : (mouseButtonDown v Button.left 400 300).centerX = 0 := by
    simp only [mouseButtonDown, WIDTH, HEIGHT, hs]
    norm_num
  have hy : (mouseButtonDown v Button.left 400 300).centerY = 0 := by
    simp only [mouseButtonDown, WIDTH, HEIGHT, hs]
    norm_num
  refine ⟨hx, hy, rfl, ?_⟩
  rw [hx, hy]
  constructor
  · rintro ⟨h1, h2⟩
    exact ⟨h1.symm, h2.symm⟩
  · rintro ⟨h1, h2⟩
    exact ⟨h1.symm, h2.symm⟩

/-- Witness for C9 (amended): the viewport `(1, 2, 1)` over `ℚ`. -/
theorem center_click_scale_one_witness :
    (⟨1, 2, 1⟩ : Viewport ℚ).scale = 1
      ∧ (mouseButtonDown (⟨1, 2, 1⟩ : Viewport ℚ) Button.left 400 300).centerX = 0 :=
  ⟨rfl, (center_click_scale_one (⟨1, 2, 1⟩ : Viewport ℚ) rfl).1⟩

/-! ## Colour -/

/-- Counterexample to C10 as stated: for `n = 1` the computed intensity is `2`, while
`255 * 1 / 100 = 2.55` rounds to `3`. -/
theorem color_round_counterexample :
    color 1 100 = 2 ∧ color 1 MAX_ITERATIONS = 2 ∧ round ((255 * (1 : ℚ)) / 100) = 3 := by
  refine ⟨by decide, by decide, ?_⟩
  norm_num [round_eq]

/-- C10 (amended): for every iteration count `n` with `0 ≤ n ≤ 100`, the intensity computed
in `drawMandelbrot` and in `drawJuliaSet` is `255 * n / 100` rounded down (the floor, not the
nearest integer). -/
theorem color_floor (n : Int) (h0 : 0 ≤ n) (h100 : n ≤ 100) :
    color n 100 = ⌊(255 * (n : ℚ)) / 100⌋
      ∧ color n MAX_ITERATIONS = ⌊(255 * (n : ℚ)) / 100⌋ := by
  have h : color n 100 = ⌊(255 * (n : ℚ)) / 100⌋ := by
    unfold color
    rw [Int.tdiv_eq_ediv (by omega) (by decide)]
    have hf := Rat.floor_intCast_div_natCast (255 * n) 100
    push_cast at hf
    exact hf.symm
  exact ⟨h, h⟩

/-- Witness for C10 (amended): `n = 1`. -/
theorem color_floor_witness :
    (0 : Int) ≤ 1 ∧ (1 : Int) ≤ 100 ∧ color 1 100 = ⌊(255 * ((1 : Int) : ℚ)) / 100⌋ :=
  ⟨by decide, by decide, (color_floor 1 (by decide) (by decide)).1⟩

/-- The intensity `(255 * n) / 100` for `0 ≤ n ≤ 100`: between 0 and 255, and 255 only at
`n = 100`. -/
theorem color_range_aux (n : Int) (h0 : 0 ≤ n) (h100 : n ≤ 100) :
    0 ≤ color n 100 ∧ color n 100 ≤ 255 ∧ (color n 100 = 255 ↔ n = 100) := by
  unfold color
  rw [Int.tdiv_eq_ediv (by omega) (by decide)]
  omega

/-- C11: for every iteration count `n` with `0 ≤ n ≤ 100`, the intensity computed in
`drawMandelbrot` (cap 100) and in `drawJuliaSet` (cap `MAX_ITERATIONS`) lies in `[0, 255]`
and equals 255 if and only if `n` is the cap. -/
theorem color_saturates_at_cap (n : Int) (h0 : 0 ≤ n) (h100 : n ≤ 100) :
    (0 ≤ color n 100 ∧ color n 100 ≤ 255 ∧ (color n 100 = 255 ↔ n = 100))
      ∧ (0 ≤ color n MAX_ITERATIONS ∧ color n MAX_ITERATIONS ≤ 255
        ∧ (color n MAX_ITERATIONS = 255 ↔ n = MAX_ITERATIONS)) :=
  ⟨color_range_aux n h0 h100, color_range_aux n h0 h100⟩

/-- Witness for C11: `n = 100`. -/
theorem color_saturates_at_cap_witness :
    ((0 : Int) ≤ 100 ∧ (100 : Int) ≤ 100) ∧ color 100 100 = 255 :=
  ⟨⟨by decide, by decide⟩, (color_saturates_at_cap 100 (by decide) (by decide)).1.2.2.mpr rfl⟩

/-! ## Pixel renderers -/

/-- A nested `for` loop over `a` columns and `b` rows issues `a * b` calls. -/
theorem grid_length {α : Type} (f : Nat → Nat → α) (b : Nat) :
    ∀ a : Nat, ((List.range a).flatMap fun x => (List.range b).map (f x)).length = a * b := by
  intro a
  induction a with
  | zero => simp
  | succ n ih =>
    rw [List.range_succ, List.flatMap_append, List.length_append, ih, List.flatMap_singleton,
      List.length_map, List.length_range]
    ring

/-- In a nested `for` loop over `a` columns and `b` rows, the call for column `x` and row `y`
is the one at position `x * b + y`. -/
theorem grid_getElem? {α : Type} (f : Nat → Nat → α) (b : Nat) :
    ∀ (a x y : Nat), x < a → y < b →
      ((List.range a).flatMap fun x => (List.range b).map (f x))[x * b + y]? = some (f x y) := by
  intro a
  induction a with
  | zero => intro x y hx; omega
  | succ n ih =>
    intro x y hx hy
    rw [List.range_succ, List.flatMap_append, List.flatMap_singleton]
    by_cases hxn : x < n
    · have hlt : x * b + y < n * b := by
        have h1 : (x + 1) * b ≤ n * b := Nat.mul_le_mul_right b hxn
        have h2 : (x + 1) * b = x * b + b := by ring
        omega
      rw [List.getElem?_append_left (by rw [grid_length]; exact hlt)]
      exact ih x y hxn hy
    · have hxe : x = n := by omega
      subst hxe
      rw [List.getElem?_append_right (by rw [grid_length]; omega), grid_length,
        Nat.add_sub_cancel_left, List.getElem?_map, List.getElem?_range hy]
      rfl

theorem WIDTH_toNat : WIDTH.toNat = 800 := by decide

theorem HEIGHT_toNat : HEIGHT.toNat = 600 := by decide

/-- C12: for every viewport state with `scale > 0`, one call of `drawMandelbrot` issues exactly
480,000 plot calls; for every pixel `(x, y)` with `0 ≤ x < 800` and `0 ≤ y < 600` the call at
position `600 * x + y` (column-major order, `x` outer, `y` inner) is the plot of the pixel
`(x, y)`; and every plotted colour has `R = G = B`. -/
theorem drawMandelbrot_plots (v : Viewport R) (_hs : 0 < v.scale) :
    (drawMandelbrot v).length = 480000
      ∧ (∀ x y : Nat, x < 800 → y < 600 →
          ∃ p : Plot, (drawMandelbrot v)[x * 600 + y]? = some p
            ∧ p.x = (x : Int) ∧ p.y = (y : Int))
      ∧ (∀ p ∈ drawMandelbrot v, p.r = p.g ∧ p.g = p.b) := by
  refine ⟨?_, ?_, ?_⟩
  · unfold drawMandelbrot
    rw [WIDTH_toNat, HEIGHT_toNat,
      grid_length (fun x y => mandelbrotPixel v (x : Int) (y : Int)) 600 800]
  · intro x y hx hy
    refine ⟨mandelbrotPixel v (x : Int) (y : Int), ?_, rfl, rfl⟩
    unfold drawMandelbrot
    rw [WIDTH_toNat, HEIGHT_toNat]
    exact grid_getElem? (fun x y => mandelbrotPixel v (x : Int) (y : Int)) 600 800 x y hx hy
  · intro p hp
    unfold drawMandelbrot at hp
    rw [List.mem_flatMap] at hp
    obtain ⟨x, _, hp⟩ := hp
    rw [List.mem_map] at hp
    obtain ⟨y, _, rfl⟩ := hp
    exact ⟨rfl, rfl⟩

/-- Witness for C12: the start-up viewport `(0, 0, 9/10)` over `ℚ`. -/
theorem drawMandelbrot_plots_witness :
    (0 : ℚ) < (⟨0, 0, 9 / 10⟩ : Viewport ℚ).scale
      ∧ (drawMandelbrot (⟨0, 0, 9 / 10⟩ : Viewport ℚ)).length = 480000 :=
  ⟨by norm_num, (drawMandelbrot_plots (⟨0, 0, 9 / 10⟩ : Viewport ℚ) (by norm_num)).1⟩

/-- C16: Julia rendering is independent of the viewport.  For any two viewport states and the
same Julia constant `c`, `drawJuliaSet` produces the identical sequence of plot calls; each
pixel's start value is taken from the static rectangle as
`(MIN_X + (MAX_X - MIN_X) * x / WIDTH, MIN_Y + (MAX_Y - MIN_Y) * y / HEIGHT)`. -/
theorem drawJuliaSet_viewport_independent (cabs : R × R → R) (v w : Viewport R) (c : R × R) :
    drawJuliaSet cabs v c = drawJuliaSet cabs w c
      ∧ drawJuliaSet cabs v c
        = (List.range 800).flatMap fun (x : Nat) => (List.range 600).map fun (y : Nat) =>
            (⟨(x : Int), (y : Int),
              toUint8 (color (juliaLoop cabs 2 100 c
                (-2 + (2 - -2) * (x : R) / 800, -1.5 + (1.5 - -1.5) * (y : R) / 600)
                0) 100),
              toUint8 (color (juliaLoop cabs 2 100 c
                (-2 + (2 - -2) * (x : R) / 800, -1.5 + (1.5 - -1.5) * (y : R) / 600)
                0) 100),
              toUint8 (color (juliaLoop cabs 2 100 c
                (-2 + (2 - -2) * (x : R) / 800, -1.5 + (1.5 - -1.5) * (y : R) / 600)
                0) 100),
              255⟩ : Plot) := by
  refine ⟨rfl, ?_⟩
  unfold drawJuliaSet
  rw [WIDTH_toNat, HEIGHT_toNat]
  simp only [juliaPixel, juliaIter, MIN_X, MAX_X, MIN_Y, MAX_Y, WIDTH, HEIGHT,
    MAX_ITERATIONS, BOUNDARY]
  norm_num

/-! ## Viewport invariant in `double` arithmetic -/

theorem roundNearestEven_pos (n d : Nat) (hd : 0 < d) (h : d < 2 * n) :
    0 < roundNearestEven n d := by
  unfold roundNearestEven
  by_cases hlt : n < d
  · have hq : n / d = 0 := Nat.div_eq_of_lt hlt
    have hr : n % d = n := Nat.mod_eq_of_lt hlt
    simp only [hq, hr]
    split_ifs <;> omega
  · have hq : 0 < n / d := Nat.div_pos (by omega) hd
    simp only []
    split_ifs <;> omega

theorem binadeShift_le (k : Nat) :
    ∀ v : Nat, 2 ^ binadeShift k v = 1 ∨ 2 ^ binadeShift k v ≤ v := by
  induction k with
  | zero => intro v; left; rfl
  | succ k ih =>
    intro v
    unfold binadeShift
    split_ifs with h
    · left; rfl
    · have h53 : (2 : Nat) ^ 53 = 9007199254740992 := by norm_num
      rw [pow_succ]
      rcases ih (v / 2) with h1 | h1
      · right; rw [h1]; omega
      · right; omega

theorem unitsOne_pos : 0 < unitsOne := by decide!

theorem unitsHalf_pos : 0 < unitsHalf := by decide!

theorem roundDouble_pos (n d : Nat) (hd : 0 < d) (h : d < 2 * n) : (roundDouble n d).Pos := by
  unfold roundDouble
  have hX : 0 < 2 ^ binadeShift (n / d) (n / d) := Nat.two_pow_pos _
  have hdX : d * 2 ^ binadeShift (n / d) (n / d) < 2 * n := by
    rcases binadeShift_le (n / d) (n / d) with h1 | h1
    · rw [h1]; omega
    · have h2 : 2 ^ binadeShift (n / d) (n / d) * d ≤ n :=
        (Nat.le_div_iff_mul_le hd).mp h1
      have h3 : d * 2 ^ binadeShift (n / d) (n / d) ≤ n := by rw [Nat.mul_comm]; exact h2
      omega
  have hr := roundNearestEven_pos n (d * 2 ^ binadeShift (n / d) (n / d))
    (Nat.mul_pos hd hX) hdX
  simp only []
  split_ifs
  · exact Nat.mul_pos hr hX
  · exact trivial

/-- The product of a strictly positive `double` and a finite `double` above `2^(-1075)` is strictly
positive: it does not round to zero. -/
theorem Dbl.mul_pos (s : Dbl) (c : Nat) (hs : s.Pos) (hc : unitsOne < 2 * c) :
    (s.mul (Dbl.fin c)).Pos ∧ ((Dbl.fin c).mul s).Pos := by
  have hU : 0 < unitsOne := unitsOne_pos
  cases s with
  | fin m =>
    have hm : 0 < m := hs
    have h1 : c ≤ m * c := Nat.le_mul_of_pos_left c hm
    have h2 : c ≤ c * m := Nat.le_mul_of_pos_right c hm
    exact ⟨roundDouble_pos (m * c) unitsOne hU (by omega),
      roundDouble_pos (c * m) unitsOne hU (by omega)⟩
  | inf =>
    have hc0 : c ≠ 0 := by omega
    simp only [Dbl.mul, if_neg hc0]
    exact ⟨trivial, trivial⟩
  | nan => exact absurd hs (by simp [Dbl.Pos])

theorem zoomIn_above_half : unitsOne < 2 * (5404319552844595 * 2 ^ 1022) := by decide!

theorem zoomOut_above_half : unitsOne < 2 * (3152519739159347 * 2 ^ 1022) := by decide!

theorem scaleInit_pos : 0 < 8106479329266893 * 2 ^ 1021 := by decide!

theorem two_mul_unitsHalf : 2 * unitsHalf = unitsOne := by decide!

theorem scaleClick_pos (b : Button) (s : Dbl) (hs : s.Pos) : (scaleClick b s).Pos := by
  cases b
  · exact (Dbl.mul_pos s (5404319552844595 * 2 ^ 1022) hs zoomIn_above_half).1
  · exact (Dbl.mul_pos s (3152519739159347 * 2 ^ 1022) hs zoomOut_above_half).1
  · exact hs

theorem foldl_scaleClick_pos (es : List Click) :
    ∀ s : Dbl, s.Pos → (es.foldl (fun s e => scaleClick e.button s) s).Pos := by
  induction es with
  | nil => intro s hs; exact hs
  | cons e rest ih => intro s hs; exact ih _ (scaleClick_pos e.button s hs)

/-- In every state reached from start-up by clicks, `scale` is strictly positive. -/
theorem scaleAfter_pos (es : List Click) : (scaleAfter es).Pos :=
  foldl_scaleClick_pos es scaleInit scaleInit_pos

/-- For a strictly positive `scale` other than the smallest subnormal, both divisors are
strictly positive. -/
theorem divisor_pos (s : Dbl) (hs : s.Pos) (h1 : s ≠ Dbl.fin 1) :
    (divisorX s).Pos ∧ (divisorY s).Pos := by
  have hhalf : (half.mul s).Pos := by
    cases s with
    | fin m =>
      have hm : 0 < m := hs
      have hm2 : 2 ≤ m := by
        rcases Nat.lt_or_ge m 2 with h | h
        · exact absurd (by congr 1; omega) h1
        · exact h
      have hU : 0 < unitsOne := unitsOne_pos
      have e : 2 * (unitsHalf * m) = unitsOne * m := by
        rw [← Nat.mul_assoc, two_mul_unitsHalf]
      have hle : unitsOne * 2 ≤ unitsOne * m := Nat.mul_le_mul_left _ hm2
      exact roundDouble_pos (unitsHalf * m) unitsOne hU (by omega)
    | inf =>
      have h0 : unitsHalf ≠ 0 := Nat.pos_iff_ne_zero.mp unitsHalf_pos
      simp [half, Dbl.mul, Dbl.Pos, h0]
    | nan => exact absurd hs (by simp [Dbl.Pos])
  have hU : 0 < unitsOne := unitsOne_pos
  exact ⟨(Dbl.mul_pos _ (800 * unitsOne) hhalf (by omega)).1,
    (Dbl.mul_pos _ (600 * unitsOne) hhalf (by omega)).1⟩

/-- At the smallest subnormal `0.5 * scale` is a tie between `0` and `2^(-1074)` and rounds to
`0`: both divisors are zero. -/
theorem divisor_zero : divisorX (Dbl.fin 1) = Dbl.fin 0 ∧ divisorY (Dbl.fin 1) = Dbl.fin 0 := by
  decide!

/-- C15 (amended): in every viewport state reached from the start-up state by any finite
sequence of clicks (any buttons, any pixels), `scale` is strictly positive in `double`
arithmetic (a non-zero finite value or `+∞`); the divisors `0.5 * scale * WIDTH` and
`0.5 * scale * HEIGHT` are strictly positive unless `scale` is the smallest positive double
`2^(-1074)`, where `0.5 * scale` rounds to zero and both divisors are zero. -/
theorem scale_positive_divisors (es : List Click) :
    (scaleAfter es).Pos
      ∧ (scaleAfter es ≠ Dbl.fin 1 →
          (divisorX (scaleAfter es)).Pos ∧ (divisorY (scaleAfter es)).Pos)
      ∧ (scaleAfter es = Dbl.fin 1 →
          divisorX (scaleAfter es) = Dbl.fin 0 ∧ divisorY (scaleAfter es) = Dbl.fin 0) := by
  refine ⟨scaleAfter_pos es, divisor_pos _ (scaleAfter_pos es), ?_⟩
  intro h
  rw [h]
  exact divisor_zero

theorem binadeShift_eq :
    ∀ (e k v : Nat), v < 2 ^ (53 + e) → (e = 0 ∨ 2 ^ (52 + e) ≤ v) → e ≤ k →
      binadeShift k v = e := by
  intro e
  induction e with
  | zero =>
    intro k v hv _ _
    cases k with
    | zero => rfl
    | succ k => unfold binadeShift; rw [if_pos hv]
  | succ e ih =>
    intro k v hv hlo hk
    have hlo' : 2 ^ (52 + (e + 1)) ≤ v := by
      rcases hlo with h | h
      · omega
      · exact h
    obtain ⟨k', rfl⟩ : ∃ k', k = k' + 1 := ⟨k - 1, by omega⟩
    have e1 : (2 : Nat) ^ (52 + (e + 1)) = 2 * 2 ^ (52 + e) := by
      rw [← Nat.add_assoc, pow_succ, Nat.mul_comm]
    have e2 : (2 : Nat) ^ (53 + (e + 1)) = 2 * 2 ^ (53 + e) := by
      rw [← Nat.add_assoc, pow_succ, Nat.mul_comm]
    have e3 : (2 : Nat) ^ (53 + e) = 2 * 2 ^ (52 + e) := by
      rw [show 53 + e = (52 + e) + 1 by omega, pow_succ, Nat.mul_comm]
    have e4 : (2 : Nat) ^ 53 ≤ 2 ^ (53 + e) := Nat.pow_le_pow_right (by decide) (by omega)
    rw [e1] at hlo'
    rw [e2] at hv
    unfold binadeShift
    rw [if_neg (by omega)]
    rw [ih k' (v / 2) (by omega) (by right; omega) (by omega)]

theorem binadeShift_of_shiftOk (v e : Nat) (h : shiftOk v e = true) :
    binadeShift v v = e := by
  simp only [shiftOk, Bool.and_eq_true, Bool.or_eq_true, decide_eq_true_eq, beq_iff_eq] at h
  refine binadeShift_eq e v v h.1 h.2 ?_
  rcases h.2 with h0 | h0
  · omega
  · have h1 : e < 2 ^ e := Nat.lt_two_pow e
    have h2 : (2 : Nat) ^ e ≤ 2 ^ (52 + e) := Nat.pow_le_pow_right (by decide) (by omega)
    omega

theorem stepFast_spec (c a hint b h' : Nat) (h : stepFast c a hint = some (b, h')) :
    (Dbl.fin a).mul (Dbl.fin c) = Dbl.fin b := by
  unfold stepFast at h
  simp only [] at h
  show roundDouble (a * c) unitsOne = Dbl.fin b
  unfold roundDouble
  split_ifs at h with h1 h2 h3 h4
  · rw [binadeShift_of_shiftOk _ _ h1]
    simp only [Option.some.injEq, Prod.mk.injEq] at h
    obtain ⟨rfl, _⟩ := h
    simp only [if_pos h2]
  · rw [binadeShift_of_shiftOk _ _ h3]
    simp only [Option.some.injEq, Prod.mk.injEq] at h
    obtain ⟨rfl, _⟩ := h
    simp only [if_pos h4]

theorem iterFast_spec (c : Nat) :
    ∀ (k a h b h' : Nat), iterFast c k a h = some (b, h') →
      (fun s : Dbl => s.mul (Dbl.fin c))^[k] (Dbl.fin a) = Dbl.fin b := by
  intro k
  induction k with
  | zero =>
    intro a h b h' hk
    simp only [iterFast, Option.some.injEq, Prod.mk.injEq] at hk
    simp [hk.1]
  | succ k ih =>
    intro a h b h' hk
    unfold iterFast at hk
    rw [Function.iterate_succ_apply]
    cases hs : stepFast c a h with
    | none => rw [hs] at hk; exact absurd hk (by simp)
    | some p =>
      obtain ⟨m, g⟩ := p
      rw [hs] at hk
      rw [stepFast_spec c a h m g hs]
      exact ih m g b h' hk

theorem foldl_replicate_right (e : Click) (he : e.button = Button.right) :
    ∀ (n : Nat) (s : Dbl),
      (List.replicate n e).foldl (fun s e => scaleClick e.button s) s
        = (fun s : Dbl => s.mul zoomOut)^[n] s := by
  intro n
  induction n with
  | zero => intro s; rfl
  | succ n ih =>
    intro s
    rw [List.replicate_succ, List.foldl_cons, Function.iterate_succ_apply, ih]
    simp only [scaleClick, he]

/-- The 2086 multiplications by `0.7` from `0.9`, evaluated. -/
theorem iterFast_zoomOut :
    iterFast (3152519739159347 * 2 ^ 1022) 2086 (8106479329266893 * 2 ^ 1021) 1021
      = some (1, 0) := by
  decide!

/-- Counterexample to C15 as stated: after 2086 secondary clicks from start-up `scale` is the
smallest positive double `2^(-1074)`, `0.5 * scale` rounds to zero, and both divisors
`0.5 * scale * WIDTH` and `0.5 * scale * HEIGHT` are zero. -/
theorem scale_divisor_counterexample :
    scaleAfter (List.replicate 2086 ⟨Button.right, 400, 300⟩) = Dbl.fin 1
      ∧ divisorX (scaleAfter (List.replicate 2086 ⟨Button.right, 400, 300⟩)) = Dbl.fin 0
      ∧ divisorY (scaleAfter (List.replicate 2086 ⟨Button.right, 400, 300⟩)) = Dbl.fin 0 := by
  have h : scaleAfter (List.replicate 2086 ⟨Button.right, 400, 300⟩) = Dbl.fin 1 := by
    unfold scaleAfter
    rw [foldl_replicate_right _ rfl]
    exact iterFast_spec _ 2086 _ 1021 1 0 iterFast_zoomOut
  rw [h]
  exact ⟨rfl, divisor_zero⟩

/-! ## Barnsley fern -/

/-- Counterexample to C13 as stated: the boundary draws `r = 1`, `r = 86` and `r = 93` select
the stem, the large-leaflet and the left-leaflet map, not the large-leaflet, left-leaflet and
right-leaflet map (shown at the point `(1, 1)`). -/
theorem fern_band_counterexample :
    (fernStep (1 : ℚ) (1, 1) = stemMap (1, 1)
        ∧ fernStep (1 : ℚ) (1, 1) ≠ largeLeafletMap (1, 1))
      ∧ (fernStep (86 : ℚ) (1, 1) = largeLeafletMap (1, 1)
        ∧ fernStep (86 : ℚ) (1, 1) ≠ leftLeafletMap (1, 1))
      ∧ (fernStep (93 : ℚ) (1, 1) = leftLeafletMap (1, 1)
        ∧ fernStep (93 : ℚ) (1, 1) ≠ rightLeafletMap (1, 1)) := by
  simp only [fernStep, stemMap, largeLeafletMap, leftLeafletMap, rightLeafletMap]
  norm_num

/-- C13 (amended): in one step of the Barnsley fern iteration, for every draw `r` in
`[0, 100)` the affine map applied is selected by the cumulative bands closed on the right:
`r` in `[0, 1]` selects the stem map (`x' = 0`, `y' = 0.16 y`), `r` in `(1, 86]` the
large-leaflet map, `r` in `(86, 93]` the left-leaflet map and `r` in `(93, 100)` the
right-leaflet map. -/
theorem fern_band_selection (r : R) (p : R × R) (_h0 : 0 ≤ r) (_h100 : r < 100) :
    (r ≤ 1 → fernStep r p = stemMap p)
      ∧ (1 < r ∧ r ≤ 86 → fernStep r p = largeLeafletMap p)
      ∧ (86 < r ∧ r ≤ 93 → fernStep r p = leftLeafletMap p)
      ∧ (93 < r → fernStep r p = rightLeafletMap p)
      ∧ stemMap p = (0, 0.16 * p.2) := by
  have e1 : (1.0 : R) = 1 := by norm_num
  have e86 : (86.0 : R) = 86 := by norm_num
  have e93 : (93.0 : R) = 93 := by norm_num
  refine ⟨?_, ?_, ?_, ?_, ?_⟩
  · intro h
    simp only [fernStep, stemMap, e1, if_pos h]
  · rintro ⟨h1, h2⟩
    simp only [fernStep, largeLeafletMap, e1, e86, if_neg (not_le.mpr h1), if_pos h2]
  · rintro ⟨h1, h2⟩
    have h3 : ¬ r ≤ 1 := not_le.mpr (lt_trans (by norm_num) h1)
    simp only [fernStep, leftLeafletMap, e1, e86, e93, if_neg h3, if_neg (not_le.mpr h1),
      if_pos h2]
  · intro h1
    have h2 : ¬ r ≤ 86 := not_le.mpr (lt_trans (by norm_num) h1)
    have h3 : ¬ r ≤ 1 := not_le.mpr (lt_trans (by norm_num) h1)
    simp only [fernStep, rightLeafletMap, e1, e86, e93, if_neg h3, if_neg h2,
      if_neg (not_le.mpr h1)]
  · simp only [stemMap]
    norm_num

/-- Witness for C13 (amended): the boundary draw `r = 1` at the point `(1, 1)`, over `ℚ`. -/
theorem fern_band_selection_witness :
    ((0 : ℚ) ≤ 1 ∧ (1 : ℚ) < 100) ∧ fernStep (1 : ℚ) (1, 1) = stemMap (1, 1) :=
  ⟨⟨by norm_num, by norm_num⟩,
    (fern_band_selection (1 : ℚ) (1, 1) (by norm_num) (by norm_num)).1 (le_refl 1)⟩

set_option maxHeartbeats 4000000 in
/-- The stem map sends the polygon into itself. -/
theorem fernRegion_stem (x y : R) (h : FernRegion x y) :
    FernRegion (0.0) (0.16 * y) where
  f0 := by norm_num
  f1 := by linarith [h.f1]
  f2 := by norm_num
  f3 := by linarith [h.f4]
  f4 := by linarith [h.f4]
  f5 := by linarith [h.f1]
  f6 := by linarith [h.f1]
  f7 := by linarith [h.f1]
  f8 := by linarith [h.f1]
  f9 := by linarith [h.f1]
  f10 := by linarith [h.f1]
  f11 := by linarith [h.f1]
  f12 := by linarith [h.f1]
  f13 := by linarith [h.f1]
  f14 := by linarith [h.f1]
  f15 := by linarith [h.f1]
  f16 := by linarith [h.f1]
  f17 := by linarith [h.f1]
  f18 := by linarith [h.f1]
  f19 := by linarith [h.f1]
  f20 := by linarith [h.f1]
  f21 := by linarith [h.f1]
  f22 := by linarith [h.f1]
  f23 := by linarith [h.f1]
  f24 := by linarith [h.f1]
  f25 := by linarith [h.f1]
  f26 := by linarith [h.f1]
  f27 := by linarith [h.f1]

set_option maxHeartbeats 4000000 in
/-- The large-leaflet map sends the polygon into itself. -/
theorem fernRegion_large (x y : R) (h : FernRegion x y) :
    FernRegion (0.85 * x + 0.04 * y) (-0.04 * x + 0.85 * y + 1.6) where
  f0 := by linarith [h.f0, h.f1]
  f1 := by linarith [h.f5, h.f6]
  f2 := by linarith [h.f2, h.f3]
  f3 := by linarith [h.f3, h.f4]
  f4 := by linarith [h.f0, h.f4]
  f5 := by linarith [h.f6, h.f7]
  f6 := by linarith [h.f6, h.f7]
  f7 := by linarith [h.f8, h.f9]
  f8 := by linarith [h.f8, h.f9]
  f9 := by linarith [h.f10, h.f11]
  f10 := by linarith [h.f10, h.f11]
  f11 := by linarith [h.f12, h.f13]
  f12 := by linarith [h.f13, h.f14]
  f13 := by linarith [h.f13, h.f14]
  f14 := by linarith [h.f14, h.f15]
  f15 := by linarith [h.f16, h.f17]
  f16 := by linarith [h.f16, h.f17]
  f17 := by linarith [h.f18, h.f19]
  f18 := by linarith [h.f19, h.f20]
  f19 := by linarith [h.f19, h.f20]
  f20 := by linarith [h.f21, h.f22]
  f21 := by linarith [h.f21, h.f22]
  f22 := by linarith [h.f23, h.f24]
  f23 := by linarith [h.f23, h.f24]
  f24 := by linarith [h.f25, h.f26]
  f25 := by linarith [h.f25, h.f26]
  f26 := by linarith [h.f26, h.f27]
  f27 := by linarith [h.f2, h.f27]

set_option maxHeartbeats 4000000 in
/-- The left-leaflet map sends the polygon into itself. -/
theorem fernRegion_left (x y : R) (h : FernRegion x y) :
    FernRegion (0.2 * x - 0.26 * y) (0.23 * x + 0.22 * y + 1.6) where
  f0 := by linarith [h.f0, h.f4]
  f1 := by linarith [h.f0, h.f1]
  f2 := by linarith [h.f17, h.f18]
  f3 := by linarith [h.f2, h.f27]
  f4 := by linarith [h.f2, h.f3]
  f5 := by linarith [h.f0, h.f1]
  f6 := by linarith [h.f0, h.f1]
  f7 := by linarith [h.f0, h.f1]
  f8 := by linarith [h.f0, h.f1]
  f9 := by linarith [h.f0, h.f1]
  f10 := by linarith [h.f0, h.f1]
  f11 := by linarith [h.f0, h.f1]
  f12 := by linarith [h.f0, h.f1]
  f13 := by linarith [h.f0, h.f1]
  f14 := by linarith [h.f0, h.f1]
  f15 := by linarith [h.f0, h.f1]
  f16 := by linarith [h.f0, h.f1]
  f17 := by linarith [h.f0, h.f1]
  f18 := by linarith [h.f0, h.f1]
  f19 := by linarith [h.f0, h.f1]
  f20 := by linarith [h.f0, h.f1]
  f21 := by linarith [h.f0, h.f1]
  f22 := by linarith [h.f0, h.f1]
  f23 := by linarith [h.f1, h.f5]
  f24 := by linarith [h.f5, h.f6]
  f25 := by linarith [h.f6, h.f7]
  f26 := by linarith [h.f7, h.f8]
  f27 := by linarith [h.f9, h.f10]

set_option maxHeartbeats 4000000 in
/-- The right-leaflet map sends the polygon into itself. -/
theorem fernRegion_right (x y : R) (h : FernRegion x y) :
    FernRegion (-0.15 * x + 0.28 * y) (0.26 * x + 0.24 * y + 0.44) where
  f0 := by linarith [h.f14, h.f15]
  f1 := by linarith [h.f0, h.f1]
  f2 := by linarith [h.f0, h.f4]
  f3 := by linarith [h.f3, h.f4]
  f4 := by linarith [h.f2, h.f3]
  f5 := by linarith [h.f0, h.f1]
  f6 := by linarith [h.f0, h.f1]
  f7 := by linarith [h.f0, h.f1]
  f8 := by linarith [h.f0, h.f1]
  f9 := by linarith [h.f0, h.f1]
  f10 := by linarith [h.f0, h.f1]
  f11 := by linarith [h.f0, h.f1]
  f12 := by linarith [h.f0, h.f1]
  f13 := by linarith [h.f0, h.f1]
  f14 := by linarith [h.f0, h.f1]
  f15 := by linarith [h.f0, h.f1]
  f16 := by linarith [h.f0, h.f1]
  f17 := by linarith [h.f0, h.f1]
  f18 := by linarith [h.f0, h.f1]
  f19 := by linarith [h.f0, h.f1]
  f20 := by linarith [h.f0, h.f4]
  f21 := by linarith [h.f0, h.f4]
  f22 := by linarith [h.f0, h.f4]
  f23 := by linarith [h.f0, h.f4]
  f24 := by linarith [h.f0, h.f4]
  f25 := by linarith [h.f0, h.f4]
  f26 := by linarith [h.f0, h.f4]
  f27 := by linarith [h.f0, h.f4]

/-- The start point `(0, 0)` lies in the polygon. -/
theorem fernRegion_origin : FernRegion (0 : R) 0 := by
  constructor <;> norm_num

/-- The polygon lies inside the box `[-3, 3] × [0, 10]`. -/
theorem fernRegion_box (x y : R) (h : FernRegion x y) :
    -3 ≤ x ∧ x ≤ 3 ∧ 0 ≤ y ∧ y ≤ 10 :=
  ⟨by linarith [h.f2], by linarith [h.f0], by linarith [h.f4], by linarith [h.f1]⟩

/-- One step of the fern iteration stays in the polygon, whatever the draw. -/
theorem fernStep_region (r : R) (p : R × R) (h : FernRegion p.1 p.2) :
    FernRegion (fernStep r p).1 (fernStep r p).2 := by
  unfold fernStep
  split_ifs
  · exact fernRegion_stem p.1 p.2 h
  · exact fernRegion_large p.1 p.2 h
  · exact fernRegion_left p.1 p.2 h
  · exact fernRegion_right p.1 p.2 h

/-- Every point produced from a point of the polygon lies in the polygon. -/
theorem fernPoints_region (rs : List R) :
    ∀ p : R × R, FernRegion p.1 p.2 → ∀ q ∈ fernPoints rs p, FernRegion q.1 q.2 := by
  induction rs with
  | nil => intro p _ q hq; simp [fernPoints] at hq
  | cons r rest ih =>
    intro p hp q hq
    simp only [fernPoints, List.mem_cons] at hq
    rcases hq with rfl | hq
    · exact fernStep_region r p hp
    · exact ih _ (fernStep_region r p hp) q hq

/-- C14: starting from the state `(0, 0)`, for every finite sequence of draws (in particular
every sequence of draws in `[0, 100)`, that is every sequence of map choices), every point
produced by the Barnsley fern iteration lies in the region `-3 ≤ x ≤ 3`, `0 ≤ y ≤ 10`, the
arithmetic being exact. -/
theorem fern_points_bounded (rs : List R) (q : R × R) (hq : q ∈ fernPoints rs (0.0, 0.0)) :
    -3 ≤ q.1 ∧ q.1 ≤ 3 ∧ 0 ≤ q.2 ∧ q.2 ≤ 10 := by
  have h0 : FernRegion ((0.0 : R), (0.0 : R)).1 ((0.0 : R), (0.0 : R)).2 := by
    have := fernRegion_origin (R := R)
    norm_num
    exact this
  exact fernRegion_box q.1 q.2 (fernPoints_region rs _ h0 q hq)

/-- Witness for C14: the draws `1, 50, 90, 99` over `ℚ`; the second point produced is
`(0, 8/5)`. -/
theorem fern_points_bounded_witness :
    ((0 : ℚ), (8 / 5 : ℚ)) ∈ fernPoints [(1 : ℚ), 50, 90, 99] (0.0, 0.0)
      ∧ (-3 ≤ ((0 : ℚ), (8 / 5 : ℚ)).1 ∧ ((0 : ℚ), (8 / 5 : ℚ)).1 ≤ 3
        ∧ 0 ≤ ((0 : ℚ), (8 / 5 : ℚ)).2 ∧ ((0 : ℚ), (8 / 5 : ℚ)).2 ≤ 10) := by
  have hm : ((0 : ℚ), (8 / 5 : ℚ)) ∈ fernPoints [(1 : ℚ), 50, 90, 99] (0.0, 0.0) := by
    simp only [fernPoints, fernStep]
    norm_num
  exact ⟨hm, fern_points_bounded [(1 : ℚ), 50, 90, 99] (0, 8 / 5) hm⟩

/-! ## Termination of the recursive generators -/

section TerminationTheorems

variable [FloorRing R]

/-- With more nested calls allowed than the depth, `drawKochLineFuel` returns the segments of
`drawKochLine`. -/
theorem drawKochLineFuel_eq (v : Viewport R) :
    ∀ (n fuel : Nat) (x1 y1 x2 y2 : Int), n < fuel →
      drawKochLineFuel v fuel x1 y1 x2 y2 (n : Int) = some (drawKochLine v x1 y1 x2 y2 n) := by
  intro n
  induction n with
  | zero =>
    intro fuel x1 y1 x2 y2 hf
    obtain ⟨f, rfl⟩ : ∃ f, fuel = f + 1 := ⟨fuel - 1, by omega⟩
    simp [drawKochLineFuel, drawKochLine]
  | succ d ih =>
    intro fuel x1 y1 x2 y2 hf
    obtain ⟨f, rfl⟩ : ∃ f, fuel = f + 1 := ⟨fuel - 1, by omega⟩
    have hne : ((d + 1 : Nat) : Int) ≠ 0 := by omega
    have hd : ((d + 1 : Nat) : Int) - 1 = (d : Int) := by omega
    simp only [drawKochLineFuel, drawKochLine, if_neg hne, hd, ih f _ _ _ _ (by omega),
      Option.some_bind]

/-- With more nested calls allowed than the depth, `drawSierpinskiFuel` returns the segments of
`drawSierpinski`. -/
theorem drawSierpinskiFuel_eq (v : Viewport R) :
    ∀ (n fuel : Nat) (x1 y1 x2 y2 x3 y3 : Int), n < fuel →
      drawSierpinskiFuel v fuel x1 y1 x2 y2 x3 y3 (n : Int)
        = some (drawSierpinski v x1 y1 x2 y2 x3 y3 n) := by
  intro n
  induction n with
  | zero =>
    intro fuel x1 y1 x2 y2 x3 y3 hf
    obtain ⟨f, rfl⟩ : ∃ f, fuel = f + 1 := ⟨fuel - 1, by omega⟩
    simp [drawSierpinskiFuel, drawSierpinski]
  | succ d ih =>
    intro fuel x1 y1 x2 y2 x3 y3 hf
    obtain ⟨f, rfl⟩ : ∃ f, fuel = f + 1 := ⟨fuel - 1, by omega⟩
    have hne : ((d + 1 : Nat) : Int) ≠ 0 := by omega
    have hd : ((d + 1 : Nat) : Int) - 1 = (d : Int) := by omega
    simp only [drawSierpinskiFuel, drawSierpinski, if_neg hne, hd,
      ih f _ _ _ _ _ _ (by omega), Option.some_bind]

/-- With more nested calls allowed than the depth, `drawTreeFuel` returns the segments of
`drawTree`. -/
theorem drawTreeFuel_eq (m : MathLib R) (v : Viewport R) :
    ∀ (n fuel : Nat) (x y : Int) (length angle : R), n < fuel →
      drawTreeFuel m v fuel x y length angle (n : Int)
        = some (drawTree m v x y length angle n) := by
  intro n
  induction n with
  | zero =>
    intro fuel x y length angle hf
    obtain ⟨f, rfl⟩ : ∃ f, fuel = f + 1 := ⟨fuel - 1, by omega⟩
    simp [drawTreeFuel, drawTree]
  | succ d ih =>
    intro fuel x y length angle hf
    obtain ⟨f, rfl⟩ : ∃ f, fuel = f + 1 := ⟨fuel - 1, by omega⟩
    have hne : ((d + 1 : Nat) : Int) ≠ 0 := by omega
    have hd : ((d + 1 : Nat) : Int) - 1 = (d : Int) := by omega
    simp only [drawTreeFuel, drawTree, if_neg hne, hd, ih f _ _ _ _ (by omega),
      Option.some_bind]

/-- With a negative depth `drawKochLineFuel` exhausts every bound on the nesting of calls: the
base case is never reached. -/
theorem drawKochLineFuel_negative (v : Viewport R) :
    ∀ (fuel : Nat) (x1 y1 x2 y2 depth : Int), depth < 0 →
      drawKochLineFuel v fuel x1 y1 x2 y2 depth = none := by
  intro fuel
  induction fuel with
  | zero => intro x1 y1 x2 y2 depth _; rfl
  | succ f ih =>
    intro x1 y1 x2 y2 depth hd
    have hne : depth ≠ 0 := by omega
    simp only [drawKochLineFuel, if_neg hne, ih _ _ _ _ (depth - 1) (by omega),
      Option.none_bind]

/-- C17: for every non-negative depth and all other arguments, each of `drawKochLine`,
`drawSierpinski` and `drawTree` terminates: every recursive call is made with `depth - 1` and
the `depth == 0` case makes no recursive call, so with more than `depth` nested calls allowed
the call returns, and it returns the emitted segments. -/
theorem generators_terminate (m : MathLib R) (v : Viewport R) (depth : Int) (hd : 0 ≤ depth)
    (fuel : Nat) (hf : depth.toNat < fuel) :
    (∀ x1 y1 x2 y2 : Int,
        drawKochLineFuel v fuel x1 y1 x2 y2 depth
          = some (drawKochLine v x1 y1 x2 y2 depth.toNat))
      ∧ (∀ x1 y1 x2 y2 x3 y3 : Int,
        drawSierpinskiFuel v fuel x1 y1 x2 y2 x3 y3 depth
          = some (drawSierpinski v x1 y1 x2 y2 x3 y3 depth.toNat))
      ∧ (∀ (x y : Int) (length angle : R),
        drawTreeFuel m v fuel x y length angle depth
          = some (drawTree m v x y length angle depth.toNat)) := by
  obtain ⟨n, rfl⟩ : ∃ n : Nat, depth = (n : Int) := ⟨depth.toNat, by omega⟩
  have hn : n < fuel := by simpa using hf
  refine ⟨fun x1 y1 x2 y2 => ?_, fun x1 y1 x2 y2 x3 y3 => ?_, fun x y length angle => ?_⟩
  · simpa using drawKochLineFuel_eq v n fuel x1 y1 x2 y2 hn
  · simpa using drawSierpinskiFuel_eq v n fuel x1 y1 x2 y2 x3 y3 hn
  · simpa using drawTreeFuel_eq m v n fuel x y length angle hn

/-- Witness for C17: depth 2 with 3 nested calls allowed, zero pan offset, over `ℚ`. -/
theorem generators_terminate_witness :
    ((0 : Int) ≤ 2 ∧ (2 : Int).toNat < 3)
      ∧ drawKochLineFuel (⟨0, 0, 1⟩ : Viewport ℚ) 3 0 0 9 0 2
          = some (drawKochLine (⟨0, 0, 1⟩ : Viewport ℚ) 0 0 9 0 (2 : Int).toNat) :=
  ⟨⟨by decide, by decide⟩,
    (generators_terminate (⟨fun _ => 0, fun _ => 1, 22 / 7⟩ : MathLib ℚ)
      (⟨0, 0, 1⟩ : Viewport ℚ) 2 (by decide) 3 (by decide)).1 0 0 9 0⟩

end TerminationTheorems

/-! ## Koch subdivision step and Sierpinski bounding box -/

section GeometryTheorems

variable [FloorRing R]

/-- With a zero pan offset the `int - double` re-assignment leaves a coordinate unchanged. -/
theorem toInt_sub_zero (x : Int) : toInt ((x : R) - 0) = x := by
  simpa [panShift] using panShift_zero (R := R) x

/-- With a zero pan offset, `drawKochLine` at a non-zero depth recurses on the four
sub-segments given by `kochSubdivide`. -/
theorem drawKochLine_succ_zero_pan (v : Viewport R) (hx : v.centerX = 0) (hy : v.centerY = 0)
    (x1 y1 x2 y2 : Int) (d : Nat) :
    drawKochLine v x1 y1 x2 y2 (d + 1)
      = drawKochLine v x1 y1 (kochSubdivide x1 y1 x2 y2).1.1 (kochSubdivide x1 y1 x2 y2).1.2 d
        ++ drawKochLine v (kochSubdivide x1 y1 x2 y2).1.1 (kochSubdivide x1 y1 x2 y2).1.2
            (kochSubdivide x1 y1 x2 y2).2.1.1 (kochSubdivide x1 y1 x2 y2).2.1.2 d
        ++ drawKochLine v (kochSubdivide x1 y1 x2 y2).2.1.1 (kochSubdivide x1 y1 x2 y2).2.1.2
            (kochSubdivide x1 y1 x2 y2).2.2.1 (kochSubdivide x1 y1 x2 y2).2.2.2 d
        ++ drawKochLine v (kochSubdivide x1 y1 x2 y2).2.2.1 (kochSubdivide x1 y1 x2 y2).2.2.2
            x2 y2 d := by
  rw [drawKochLine]
  simp only [hx, hy, toInt_sub_zero, kochSubdivide]

/-- The subdivision step on a segment whose `deltaX` and `deltaY` are multiples of 6. -/
theorem kochSubdivide_of_mul_six (x1 y1 a b : Int) :
    kochSubdivide x1 y1 (x1 + 6 * a) (y1 + 6 * b)
      = ((x1 + 2 * a, y1 + 2 * b), (x1 + 3 * a - 2 * b, y1 + 3 * b + 2 * a),
          (x1 + 4 * a, y1 + 4 * b)) := by
  have e1 : ∀ t : Int, Int.tdiv (6 * t) 3 = 2 * t := fun t =>
    Int.tdiv_eq_of_eq_mul_right (by decide) (by ring)
  have e2 : ∀ t : Int, Int.tdiv (2 * (6 * t)) 3 = 4 * t := fun t =>
    Int.tdiv_eq_of_eq_mul_right (by decide) (by ring)
  have e3 : ∀ s t : Int, Int.tdiv (s + 2 * t + (s + 4 * t)) 2 = s + 3 * t := fun s t =>
    Int.tdiv_eq_of_eq_mul_right (by decide) (by ring)
  simp only [kochSubdivide, add_sub_cancel_left, e1, e2, e3]

/-- C19: in one Koch subdivision step with zero pan offset, `drawKochLine` recurses on the
sub-segments through the trisection points `(x1 + deltaX/3, y1 + deltaY/3)` and
`(x1 + 2*deltaX/3, y1 + 2*deltaY/3)` and the apex; whenever `deltaX` and `deltaY` are both
multiples of 6 the divisions are exact, the apex minus the segment midpoint equals
`(-deltaY/3, deltaX/3)`, which has dot product 0 with `(deltaX, deltaY)` and squared length
exactly `(deltaX² + deltaY²) / 9`. -/
theorem koch_apex_perpendicular (v : Viewport R) (hx : v.centerX = 0) (hy : v.centerY = 0)
    (x1 y1 x2 y2 : Int) (d : Nat) :
    drawKochLine v x1 y1 x2 y2 (d + 1)
        = drawKochLine v x1 y1 (kochSubdivide x1 y1 x2 y2).1.1 (kochSubdivide x1 y1 x2 y2).1.2 d
          ++ drawKochLine v (kochSubdivide x1 y1 x2 y2).1.1 (kochSubdivide x1 y1 x2 y2).1.2
              (kochSubdivide x1 y1 x2 y2).2.1.1 (kochSubdivide x1 y1 x2 y2).2.1.2 d
          ++ drawKochLine v (kochSubdivide x1 y1 x2 y2).2.1.1 (kochSubdivide x1 y1 x2 y2).2.1.2
              (kochSubdivide x1 y1 x2 y2).2.2.1 (kochSubdivide x1 y1 x2 y2).2.2.2 d
          ++ drawKochLine v (kochSubdivide x1 y1 x2 y2).2.2.1 (kochSubdivide x1 y1 x2 y2).2.2.2
              x2 y2 d
      ∧ (kochSubdivide x1 y1 x2 y2).1
          = (x1 + Int.tdiv (x2 - x1) 3, y1 + Int.tdiv (y2 - y1) 3)
      ∧ (kochSubdivide x1 y1 x2 y2).2.2
          = (x1 + Int.tdiv (2 * (x2 - x1)) 3, y1 + Int.tdiv (2 * (y2 - y1)) 3)
      ∧ (6 ∣ x2 - x1 → 6 ∣ y2 - y1 →
          (3 * Int.tdiv (x2 - x1) 3 = x2 - x1 ∧ 3 * Int.tdiv (y2 - y1) 3 = y2 - y1
            ∧ 3 * Int.tdiv (2 * (x2 - x1)) 3 = 2 * (x2 - x1)
            ∧ 3 * Int.tdiv (2 * (y2 - y1)) 3 = 2 * (y2 - y1)
            ∧ 2 * Int.tdiv (x1 + x2) 2 = x1 + x2 ∧ 2 * Int.tdiv (y1 + y2) 2 = y1 + y2)
          ∧ (kochSubdivide x1 y1 x2 y2).2.1.1 - Int.tdiv (x1 + x2) 2
              = - Int.tdiv (y2 - y1) 3
          ∧ (kochSubdivide x1 y1 x2 y2).2.1.2 - Int.tdiv (y1 + y2) 2
              = Int.tdiv (x2 - x1) 3
          ∧ (- Int.tdiv (y2 - y1) 3) * (x2 - x1) + Int.tdiv (x2 - x1) 3 * (y2 - y1) = 0
          ∧ 9 * ((- Int.tdiv (y2 - y1) 3) ^ 2 + Int.tdiv (x2 - x1) 3 ^ 2)
              = (x2 - x1) ^ 2 + (y2 - y1) ^ 2) := by
  refine ⟨drawKochLine_succ_zero_pan v hx hy x1 y1 x2 y2 d, rfl, rfl, ?_⟩
  rintro ⟨a, ha⟩ ⟨b, hb⟩
  obtain rfl : x2 = x1 + 6 * a := by omega
  obtain rfl : y2 = y1 + 6 * b := by omega
  have e1 : ∀ t : Int, Int.tdiv (6 * t) 3 = 2 * t := fun t =>
    Int.tdiv_eq_of_eq_mul_right (by decide) (by ring)
  have e2 : ∀ t : Int, Int.tdiv (2 * (6 * t)) 3 = 4 * t := fun t =>
    Int.tdiv_eq_of_eq_mul_right (by decide) (by ring)
  have e3 : ∀ s t : Int, Int.tdiv (s + (s + 6 * t)) 2 = s + 3 * t := fun s t =>
    Int.tdiv_eq_of_eq_mul_right (by decide) (by ring)
  have dx : x1 + 6 * a - x1 = 6 * a := by ring
  have dy : y1 + 6 * b - y1 = 6 * b := by ring
  rw [kochSubdivide_of_mul_six, dx, dy, e1, e1, e2, e2, e3, e3]
  refine ⟨⟨by ring, by ring, by ring, by ring, by ring, by ring⟩, by ring, by ring, by ring,
    by ring⟩

/-- Witness for C19: zero pan offset, the segment `(0,0)-(6,12)`, over `ℚ`; the apex is
`(-1, 8)`. -/
theorem koch_apex_perpendicular_witness :
    ((⟨0, 0, 1⟩ : Viewport ℚ).centerX = 0 ∧ (⟨0, 0, 1⟩ : Viewport ℚ).centerY = 0)
      ∧ (kochSubdivide 0 0 6 12).2.1.1 - Int.tdiv (0 + 6) 2 = - Int.tdiv (12 - 0) 3 :=
  ⟨⟨rfl, rfl⟩,
    ((koch_apex_perpendicular (⟨0, 0, 1⟩ : Viewport ℚ) rfl rfl 0 0 6 12 0).2.2.2
      (by decide) (by decide)).2.1⟩

/-- The truncating midpoint `(a + b) / 2` lies between any common bounds of `a` and `b`. -/
theorem tdiv_two_between (lo hi a b : Int) (ha : lo ≤ a ∧ a ≤ hi) (hb : lo ≤ b ∧ b ≤ hi) :
    lo ≤ Int.tdiv (a + b) 2 ∧ Int.tdiv (a + b) 2 ≤ hi := by
  by_cases h : 0 ≤ a + b
  · rw [Int.tdiv_eq_ediv h (by decide)]
    omega
  · have e : Int.tdiv (a + b) 2 = -((-(a + b)) / 2) := by
      rw [← Int.tdiv_eq_ediv (by omega) (by decide), ← Int.neg_tdiv, neg_neg]
    rw [e]
    omega

/-- With a zero pan offset, if the three vertices lie in a box then so does every endpoint of
every segment emitted by `drawSierpinski`. -/
theorem drawSierpinski_in_box (v : Viewport R) (hx : v.centerX = 0) (hy : v.centerY = 0)
    (lx hx' ly hy' : Int) :
    ∀ (k : Nat) (x1 y1 x2 y2 x3 y3 : Int),
      (lx ≤ x1 ∧ x1 ≤ hx') → (lx ≤ x2 ∧ x2 ≤ hx') → (lx ≤ x3 ∧ x3 ≤ hx') →
      (ly ≤ y1 ∧ y1 ≤ hy') → (ly ≤ y2 ∧ y2 ≤ hy') → (ly ≤ y3 ∧ y3 ≤ hy') →
      ∀ s ∈ drawSierpinski v x1 y1 x2 y2 x3 y3 k,
        (lx ≤ s.x1 ∧ s.x1 ≤ hx') ∧ (ly ≤ s.y1 ∧ s.y1 ≤ hy')
          ∧ (lx ≤ s.x2 ∧ s.x2 ≤ hx') ∧ (ly ≤ s.y2 ∧ s.y2 ≤ hy') := by
  intro k
  induction k with
  | zero =>
    intro x1 y1 x2 y2 x3 y3 a1 a2 a3 b1 b2 b3 s hs
    simp only [drawSierpinski, drawTriangle, List.mem_cons, List.mem_singleton,
      List.not_mem_nil, or_false] at hs
    rcases hs with rfl | rfl | rfl
    · exact ⟨a1, b1, a2, b2⟩
    · exact ⟨a2, b2, a3, b3⟩
    · exact ⟨a3, b3, a1, b1⟩
  | succ d ih =>
    intro x1 y1 x2 y2 x3 y3 a1 a2 a3 b1 b2 b3 s hs
    simp only [drawSierpinski, hx, hy, toInt_sub_zero, List.mem_append] at hs
    rcases hs with (hs | hs) | hs
    · exact ih _ _ _ _ _ _ a1 (tdiv_two_between lx hx' x1 x2 a1 a2)
        (tdiv_two_between lx hx' x3 x1 a3 a1) b1 (tdiv_two_between ly hy' y1 y2 b1 b2)
        (tdiv_two_between ly hy' y3 y1 b3 b1) s hs
    · exact ih _ _ _ _ _ _ (tdiv_two_between lx hx' x1 x2 a1 a2) a2
        (tdiv_two_between lx hx' x2 x3 a2 a3) (tdiv_two_between ly hy' y1 y2 b1 b2) b2
        (tdiv_two_between ly hy' y2 y3 b2 b3) s hs
    · exact ih _ _ _ _ _ _ (tdiv_two_between lx hx' x3 x1 a3 a1)
        (tdiv_two_between lx hx' x2 x3 a2 a3) a3 (tdiv_two_between ly hy' y3 y1 b3 b1)
        (tdiv_two_between ly hy' y2 y3 b2 b3) b3 s hs

/-- C20: with zero pan offset, for every input triangle and every depth `k`, every endpoint of
every segment emitted by `drawSierpinski` stays inside the bounding box of the input triangle:
its `x` lies between `min(x1,x2,x3)` and `max(x1,x2,x3)` and its `y` between
`min(y1,y2,y3)` and `max(y1,y2,y3)`. -/
theorem sierpinski_in_bounding_box (v : Viewport R) (hx : v.centerX = 0) (hy : v.centerY = 0)
    (x1 y1 x2 y2 x3 y3 : Int) (k : Nat) (s : Segment)
    (hs : s ∈ drawSierpinski v x1 y1 x2 y2 x3 y3 k) :
    (min x1 (min x2 x3) ≤ s.x1 ∧ s.x1 ≤ max x1 (max x2 x3))
      ∧ (min y1 (min y2 y3) ≤ s.y1 ∧ s.y1 ≤ max y1 (max y2 y3))
      ∧ (min x1 (min x2 x3) ≤ s.x2 ∧ s.x2 ≤ max x1 (max x2 x3))
      ∧ (min y1 (min y2 y3) ≤ s.y2 ∧ s.y2 ≤ max y1 (max y2 y3)) :=
  drawSierpinski_in_box v hx hy _ _ _ _ k x1 y1 x2 y2 x3 y3
    ⟨by omega, by omega⟩ ⟨by omega, by omega⟩ ⟨by omega, by omega⟩
    ⟨by omega, by omega⟩ ⟨by omega, by omega⟩ ⟨by omega, by omega⟩ s hs

/-- Witness for C20: zero pan offset, the triangle `(0,0), (8,0), (4,8)` at depth 1, and its
emitted segment `(2,4)-(6,4)`, over `ℚ`. -/
theorem sierpinski_in_bounding_box_witness :
    ((⟨0, 0, 1⟩ : Viewport ℚ).centerX = 0 ∧ (⟨0, 0, 1⟩ : Viewport ℚ).centerY = 0
        ∧ (⟨2, 4, 6, 4⟩ : Segment) ∈ drawSierpinski (⟨0, 0, 1⟩ : Viewport ℚ) 0 0 8 0 4 8 1)
      ∧ ((min (0 : Int) (min 8 4) ≤ (⟨2, 4, 6, 4⟩ : Segment).x1
          ∧ (⟨2, 4, 6, 4⟩ : Segment).x1 ≤ max (0 : Int) (max 8 4))
        ∧ (min (0 : Int) (min 0 8) ≤ (⟨2, 4, 6, 4⟩ : Segment).y1
          ∧ (⟨2, 4, 6, 4⟩ : Segment).y1 ≤ max (0 : Int) (max 0 8))
        ∧ (min (0 : Int) (min 8 4) ≤ (⟨2, 4, 6, 4⟩ : Segment).x2
          ∧ (⟨2, 4, 6, 4⟩ : Segment).x2 ≤ max (0 : Int) (max 8 4))
        ∧ (min (0 : Int) (min 0 8) ≤ (⟨2, 4, 6, 4⟩ : Segment).y2
          ∧ (⟨2, 4, 6, 4⟩ : Segment).y2 ≤ max (0 : Int) (max 0 8))) := by
  have hm : (⟨2, 4, 6, 4⟩ : Segment) ∈ drawSierpinski (⟨0, 0, 1⟩ : Viewport ℚ) 0 0 8 0 4 8 1 := by
    simp [drawSierpinski, drawTriangle, toInt]
    decide
  exact ⟨⟨rfl, rfl, hm⟩,
    sierpinski_in_bounding_box (⟨0, 0, 1⟩ : Viewport ℚ) rfl rfl 0 0 8 0 4 8 1 ⟨2, 4, 6, 4⟩ hm⟩

end GeometryTheorems

end Fractals
